import Mathlib

/-!
# CONNECT tunnelling through an HTTP proxy (`proxy.go`)

A shallow embedding of `DialViaProxy` and `establishProxyConnect` from package
`tunnel`.  Go strings are byte sequences, so they are lists of bytes here.  The
connection (`net.Conn`) is an explicit state: the chunks the transport is still
going to deliver, the outcomes of its deadline and write operations, the armed
deadline and a log of the operations performed on it.

The Go standard-library functions the program calls (`strings.HasPrefix`,
`strings.IndexByte`, `strconv.ParseInt`, `fmt.Sprintf`, `bufio.Reader`,
`base64.StdEncoding`, `url.Userinfo.String`, `net.JoinHostPort`) are transcribed
from the library, each under the name it has there.
-/

namespace Tunnel

/-! ## Bytes and strings -/

/-- One byte of a Go string. -/
abbrev Byte := Fin 256

/-- Go `string` / `[]byte`: a sequence of bytes. -/
abbrev Bytes := List Byte

/-- Bytes of a string literal of the program (all its literals are ASCII). -/
def str (s : String) : Bytes := s.toList.map fun c => Fin.ofNat c.toNat

/-- Go slice expression `s[lo:]`; `none` is the run-time panic of an index out
of range. -/
def sliceFrom? (s : Bytes) (lo : Int) : Option Bytes :=
  if 0 ≤ lo ∧ lo ≤ s.length then some (s.drop lo.toNat) else none

/-- Go slice expression `s[lo:hi]`; `none` is the run-time panic of an index
out of range. -/
def slice? (s : Bytes) (lo hi : Int) : Option Bytes :=
  if 0 ≤ lo ∧ lo ≤ hi ∧ hi ≤ s.length then some ((s.take hi.toNat).drop lo.toNat) else none

/-! ## Package `strings` -/

/-- Library `strings.HasPrefix(s, p)`: `len(s) >= len(p) && s[:len(p)] == p`. -/
def HasPrefix (s p : Bytes) : Bool :=
  decide (p.length ≤ s.length) && decide (s.take p.length = p)

/-- Index of the first occurrence of `c` in `s`, when there is one. -/
def indexOf? (s : Bytes) (c : Byte) : Option Nat :=
  match s with
  | [] => none
  | b :: t => if b = c then some 0 else (indexOf? t c).map (· + 1)

/-- Library `strings.IndexByte(s, c)`: index of the first `c` in `s`, or `-1`. -/
def IndexByte (s : Bytes) (c : Byte) : Int :=
  match indexOf? s c with
  | some i => (i : Int)
  | none => -1

/-! ## Package `strconv` -/

/-- The two errors `strconv` reports. -/
inductive NumError where
  | ErrSyntax
  | ErrRange
  deriving DecidableEq, Repr

/-- Largest `uint64`. -/
def maxUint64 : Nat := 2 ^ 64 - 1

/-- Digit value of a byte in `ParseUint`: `'0'..'9'`, `'a'..'z'`, `'A'..'Z'`. -/
def digitVal (c : Byte) : Option Nat :=
  if 48 ≤ c.val ∧ c.val ≤ 57 then some (c.val - 48)
  else if 97 ≤ c.val ∧ c.val ≤ 122 then some (c.val - 97 + 10)
  else if 65 ≤ c.val ∧ c.val ≤ 90 then some (c.val - 65 + 10)
  else none

/-- The digit loop of `strconv.ParseUint`, over the bytes still to be read, with
the `uint64` accumulator `n`.  Returns the value and the error. -/
def parseUintLoop (base cutoff maxVal : Nat) : Bytes → Nat → Nat × Option NumError
  | [], n => (n, none)
  | c :: t, n =>
    match digitVal c with
    | none => (0, some .ErrSyntax)
    | some d =>
      if d ≥ base then (0, some .ErrSyntax)
      else if n ≥ cutoff then (maxVal, some .ErrRange)
      else
        let n10 := (n * base) % 2 ^ 64
        let n1 := (n10 + d) % 2 ^ 64
        if n1 < n10 ∨ n1 > maxVal then (maxVal, some .ErrRange)
        else parseUintLoop base cutoff maxVal t n1

/-- Library `strconv.ParseUint(s, base, bitSize)` for `2 ≤ base ≤ 36` and
`1 ≤ bitSize ≤ 64` (the program calls it with 10 and 16). -/
def ParseUint (s : Bytes) (base bitSize : Nat) : Nat × Option NumError :=
  if s = [] then (0, some .ErrSyntax)
  else
    let cutoff := maxUint64 / base + 1
    let maxVal := 2 ^ bitSize - 1
    parseUintLoop base cutoff maxVal s 0

/-- Library `strconv.ParseInt(s, base, bitSize)`: an optional sign, then
`ParseUint`, then the range check of a signed `bitSize`-bit integer.  As in Go
the value is returned next to the error. -/
def ParseInt (s : Bytes) (base bitSize : Nat) : Int × Option NumError :=
  match s with
  | [] => (0, some .ErrSyntax)
  | c :: t =>
    let neg : Bool := decide (c = 45)
    let body : Bytes := if c = 43 ∨ c = 45 then t else s
    let (un, err) := ParseUint body base bitSize
    if err ≠ none ∧ err ≠ some .ErrRange then (0, err)
    else
      let cutoff : Nat := 2 ^ (bitSize - 1)
      if !neg ∧ un ≥ cutoff then ((cutoff : Int) - 1, some .ErrRange)
      else if neg ∧ un > cutoff then (-(cutoff : Int), some .ErrRange)
      else (if neg then -(un : Int) else (un : Int), none)

/-! ## Package `fmt` -/

/-- Decimal digits of `u`, most significant first, written right to left as
`fmtInteger` does; `fuel` bounds the number of digits (a `uint64` has 20). -/
def fmtDigits : Nat → Nat → Bytes → Bytes
  | 0, u, acc => Fin.ofNat (48 + u % 10) :: acc
  | fuel + 1, u, acc =>
    if u ≥ 10 then fmtDigits fuel (u / 10) (Fin.ofNat (48 + u % 10) :: acc)
    else Fin.ofNat (48 + u) :: acc

/-- Verb `%d` on an `int64`: a minus sign for negatives, then the digits. -/
def fmtInt (i : Int) : Bytes :=
  if i < 0 then 45 :: fmtDigits 20 i.natAbs [] else fmtDigits 20 i.natAbs []

/-- An operand of `Sprintf`: the program passes strings and one `int64`. -/
inductive Arg where
  | s (v : Bytes)
  | d (v : Int)
  deriving DecidableEq

/-- Output of one verb on one operand; a verb that does not fit the operand
prints Go's bad-verb marker. -/
def fmtVerb (verb : Byte) (a : Arg) : Bytes :=
  match a with
  | .s v =>
    if verb = 115 ∨ verb = 118 then v
    else [37, 33, verb] ++ str "(string=" ++ v ++ str ")"
  | .d v =>
    if verb = 100 ∨ verb = 118 then fmtInt v
    else [37, 33, verb] ++ str "(int64=" ++ fmtInt v ++ str ")"

/-- Library `fmt.Sprintf` for formats made of plain text, `%%` and one-letter
verbs without flags, which is how the program uses it: text is copied, each
verb consumes the next operand, a verb without operand prints `%!v(MISSING)`. -/
def Sprintf : Bytes → List Arg → Bytes
  | [], _ => []
  | [c], _ => if c = 37 then str "%!(NOVERB)" else [c]
  | c :: v :: t, args =>
    if c = 37 then
      if v = 37 then 37 :: Sprintf t args
      else
        match args with
        | [] => ([37, 33, v] ++ str "(MISSING)") ++ Sprintf t []
        | a :: rest => fmtVerb v a ++ Sprintf t rest
    else c :: Sprintf (v :: t) args

/-! ## Errors -/

/-- An error reported by a connection or by a dial: `io.EOF`, or an error of
the network layer (timeout, reset, refused, TLS failure, ...) with its text. -/
inductive ConnError where
  | EOF
  | net (text : Bytes)
  deriving DecidableEq

/-- Go `error` values the program can meet or build. -/
inductive GoError where
  /-- An error that came from the connection (`io.EOF` is `conn .EOF`). -/
  | conn (e : ConnError)
  /-- The value `io.ErrNoProgress`. -/
  | ErrNoProgress
  /-- The value `bufio.ErrBufferFull`. -/
  | ErrBufferFull
  /-- An error made by `fmt.Errorf`, with its text. -/
  | errorString (text : Bytes)
  /-- An error made by `errors.WithMessage(cause, text)`. -/
  | withMessage (cause : GoError) (text : Bytes)
  deriving DecidableEq

/-- Method `Error()`. -/
def GoError.Error : GoError → Bytes
  | .conn .EOF => str "EOF"
  | .conn (.net text) => text
  | .ErrNoProgress => str "multiple Read calls return no data or error"
  | .ErrBufferFull => str "bufio: buffer full"
  | .errorString text => text
  | .withMessage cause text => text ++ str ": " ++ cause.Error

/-- Library `fmt.Errorf(format, args...)`. -/
def Errorf (format : Bytes) (args : List Arg) : GoError :=
  .errorString (Sprintf format args)

/-- Library `errors.WithMessage(err, message)` of `github.com/pkg/errors`, on a
non-nil `err`. -/
def WithMessage (err : GoError) (message : Bytes) : GoError :=
  .withMessage err message

/-! ## The connection (`net.Conn`) -/

/-- An operation performed on a connection; the deadline is `none` for the zero
`time.Time`, which means "no deadline". -/
inductive Op where
  | SetDeadline (t : Option Nat)
  | Write (p : Bytes)
  | Read (n : Nat)
  | Close
  deriving DecidableEq

/-- State of one connection.  `id` is its identity (the Go value is a
reference); `incoming` are the chunks the transport delivers to the reads to
come, in order, and `readErr` what a read reports once they are used up;
`deadlineResults` and `writeResults` are the outcomes of the calls to come (a
call beyond the list succeeds, a write outcome is the number of bytes taken
and the error). -/
structure Conn where
  id : Nat
  incoming : List Bytes
  readErr : ConnError
  deadlineResults : List (Option ConnError)
  writeResults : List (Nat × Option ConnError)
  deadline : Option Nat
  sent : Bytes
  closed : Bool
  log : List Op
  deriving DecidableEq

/-- The bytes the connection can still deliver. -/
def Conn.pending (c : Conn) : Bytes := c.incoming.flatten

/-- Method `SetDeadline(t)`. -/
def Conn.SetDeadline (c : Conn) (t : Option Nat) : Option ConnError × Conn :=
  match c.deadlineResults with
  | [] => (none, { c with deadline := t, log := c.log ++ [.SetDeadline t] })
  | none :: rest =>
    (none, { c with deadline := t, deadlineResults := rest, log := c.log ++ [.SetDeadline t] })
  | some e :: rest =>
    (some e, { c with deadlineResults := rest, log := c.log ++ [.SetDeadline t] })

/-- Method `Write(p)`: returns the number of bytes taken and the error.  The
outcome is the one the connection has in store, whatever it is; the contract
of `io.Writer` (an error whenever fewer bytes than `len(p)` are taken) is the
predicate `WriterContract` on that outcome. -/
def Conn.Write (c : Conn) (p : Bytes) : (Nat × Option ConnError) × Conn :=
  match c.writeResults with
  | [] => ((p.length, none), { c with sent := c.sent ++ p, log := c.log ++ [.Write p] })
  | (n, err) :: rest =>
    ((min n p.length, err),
      { c with sent := c.sent ++ p.take n, writeResults := rest, log := c.log ++ [.Write p] })

/-- Method `Read(p)` on a buffer of `n` bytes: the next chunk, or as much of it
as fits, the remainder staying with the transport. -/
def Conn.Read (c : Conn) (n : Nat) : (Bytes × Option ConnError) × Conn :=
  match c.incoming with
  | [] => (([], some c.readErr), { c with log := c.log ++ [.Read n] })
  | chunk :: rest =>
    ((chunk.take n, none),
      { c with
        incoming := if chunk.length ≤ n then rest else chunk.drop n :: rest
        log := c.log ++ [.Read n] })

/-- Method `Close()`. -/
def Conn.Close (c : Conn) : Option ConnError × Conn :=
  (none, { c with closed := true, log := c.log ++ [.Close] })

/-! ## Package `bufio` -/

/-- Size of the buffer of `bufio.NewReader`. -/
def defaultBufSize : Nat := 4096

/-- Number of empty reads `fill` tolerates. -/
def maxConsecutiveEmptyReads : Nat := 100

/-- A `bufio.Reader`: the unread bytes of its buffer (`buf[r:w]`) and the
pending error. -/
structure Reader where
  buf : Bytes
  err : Option GoError
  deriving DecidableEq

/-- Library `bufio.NewReader(conn)`. -/
def NewReader : Reader := { buf := [], err := none }

/-- The read loop of `fill`, `i` attempts left. -/
def fillLoop : Nat → Reader → Conn → Reader × Conn
  | 0, b, c => ({ b with err := some .ErrNoProgress }, c)
  | i + 1, b, c =>
    let ((data, err), c1) := c.Read (defaultBufSize - b.buf.length)
    let b1 : Reader := { b with buf := b.buf ++ data }
    match err with
    | some e => ({ b1 with err := some (.conn e) }, c1)
    | none => if data.length > 0 then (b1, c1) else fillLoop i b1 c1

/-- Method `fill`: reads a new chunk into the free part of the buffer. -/
def fill (b : Reader) (c : Conn) : Reader × Conn :=
  fillLoop maxConsecutiveEmptyReads b c

/-- The loop of `ReadSlice(delim)`, `s` being the search start index; `none`
when `fuel` iterations were not enough. -/
def readSliceLoop (delim : Byte) :
    Nat → Nat → Reader → Conn → Option ((Bytes × Option GoError) × Reader × Conn)
  | 0, _, _, _ => none
  | fuel + 1, s, b, c =>
    match indexOf? (b.buf.drop s) delim with
    | some i => some ((b.buf.take (s + i + 1), none), { b with buf := b.buf.drop (s + i + 1) }, c)
    | none =>
      match b.err with
      | some e => some ((b.buf, some e), { buf := [], err := none }, c)
      | none =>
        if b.buf.length ≥ defaultBufSize then
          some ((b.buf, some .ErrBufferFull), { b with buf := [] }, c)
        else
          let (b1, c1) := fill b c
          readSliceLoop delim fuel b.buf.length b1 c1

/-- Method `ReadSlice(delim)`.  Every iteration but the last two adds a byte to
the buffer, so `defaultBufSize + 2` iterations are enough. -/
def ReadSlice (b : Reader) (c : Conn) (delim : Byte) :
    Option ((Bytes × Option GoError) × Reader × Conn) :=
  readSliceLoop delim (defaultBufSize + 2) 0 b c

/-- The loop of `ReadBytes(delim)`: full buffers are accumulated in `full`. -/
def readBytesLoop (delim : Byte) :
    Nat → Bytes → Reader → Conn → Option ((Bytes × Option GoError) × Reader × Conn)
  | 0, _, _, _ => none
  | fuel + 1, full, b, c =>
    match ReadSlice b c delim with
    | none => none
    | some ((frag, e), b1, c1) =>
      match e with
      | none => some ((full ++ frag, none), b1, c1)
      | some .ErrBufferFull => readBytesLoop delim fuel (full ++ frag) b1 c1
      | some e => some ((full ++ frag, some e), b1, c1)

/-- Method `ReadString(delim)` (`ReadBytes` turned into a string): the bytes up
to and including the first `delim`, or what was read and the error.  Every
iteration but the last takes a full buffer from the connection. -/
def ReadString (b : Reader) (c : Conn) (delim : Byte) :
    Option ((Bytes × Option GoError) × Reader × Conn) :=
  readBytesLoop delim (b.buf.length + c.pending.length + 1) [] b c

/-! ## Packages `net/url`, `encoding/base64`, `net` -/

/-- Library `shouldEscape(c, encodeUserPassword)` of `net/url`. -/
def shouldEscape (c : Byte) : Bool :=
  if (97 ≤ c.val ∧ c.val ≤ 122) ∨ (65 ≤ c.val ∧ c.val ≤ 90) ∨ (48 ≤ c.val ∧ c.val ≤ 57) then false
  else if c = 45 ∨ c = 95 ∨ c = 46 ∨ c = 126 then false
  else if c = 36 ∨ c = 38 ∨ c = 43 ∨ c = 44 ∨ c = 47 ∨ c = 58 ∨ c = 59 ∨ c = 61 ∨ c = 63
      ∨ c = 64 then
    decide (c = 64 ∨ c = 47 ∨ c = 63 ∨ c = 58)
  else true

/-- The table `upperhex`. -/
def upperhex : Bytes := str "0123456789ABCDEF"

/-- Library `escape(s, encodeUserPassword)` of `net/url`: bytes that must be
escaped become `%XX`. -/
def escape : Bytes → Bytes
  | [] => []
  | c :: t =>
    if shouldEscape c then
      37 :: upperhex.getD (c.val / 16) 0 :: upperhex.getD (c.val % 16) 0 :: escape t
    else c :: escape t

/-- Type `url.Userinfo`. -/
structure Userinfo where
  username : Bytes
  password : Bytes
  passwordSet : Bool
  deriving DecidableEq

/-- Method `String()` of `url.Userinfo`: the encoded `username[:password]`. -/
def Userinfo.String (u : Userinfo) : Bytes :=
  if u.passwordSet then escape u.username ++ str ":" ++ escape u.password
  else escape u.username

/-- What the program reads of a `url.URL`: the fields `Scheme` and `User` and
the results of the methods `Hostname()` and `Port()`. -/
structure URL where
  Scheme : Bytes
  User : Option Userinfo
  Hostname : Bytes
  Port : Bytes
  deriving DecidableEq

/-- The alphabet of `base64.StdEncoding`. -/
def encodeStd : Bytes :=
  str "ABCDEFGHIJKLMNOPQRSTUVWXYZabcdefghijklmnopqrstuvwxyz0123456789+/"

/-- The character of a 6-bit value. -/
def encodeStdChar (v : Nat) : Byte := encodeStd.getD (v % 64) 0

/-- Library `base64.StdEncoding.EncodeToString`: three bytes make four
characters, a last group of one or two bytes is padded with `=`. -/
def EncodeToString : Bytes → Bytes
  | a :: b :: c :: t =>
    let v := a.val * 65536 + b.val * 256 + c.val
    encodeStdChar (v / 262144) :: encodeStdChar (v / 4096) :: encodeStdChar (v / 64)
      :: encodeStdChar v :: EncodeToString t
  | [a, b] =>
    let v := a.val * 65536 + b.val * 256
    [encodeStdChar (v / 262144), encodeStdChar (v / 4096), encodeStdChar (v / 64), 61]
  | [a] =>
    let v := a.val * 65536
    [encodeStdChar (v / 262144), encodeStdChar (v / 4096), 61, 61]
  | [] => []

/-- Library `net.JoinHostPort(host, port)`. -/
def JoinHostPort (host port : Bytes) : Bytes :=
  if (indexOf? host 58).isSome then str "[" ++ host ++ str "]:" ++ port
  else host ++ str ":" ++ port

/-- The network as `DialViaProxy` sees it: what `net.Dial("tcp", addr)` and
`tls.Dial("tcp", addr, nil)` answer, and the clock. -/
structure Net where
  Dial : Bytes → Except ConnError Conn
  DialTLS : Bytes → Except ConnError Conn
  now : Nat

/-! ## The program -/

/-- Constant `ProxyDeadlineDuration`: 30 seconds, in nanoseconds. -/
def ProxyDeadlineDuration : Nat := 30 * 1000000000

/-- How a call ends: it returns a `net.Conn` (by identity, `none` for nil) and
an error (`none` for nil), or it panics. -/
inductive Returned where
  | values (conn : Option Nat) (err : Option GoError)
  | panic
  deriving DecidableEq

/-- What a call of `establishProxyConnect` leaves behind: how it ended and the
state of the connection after it. -/
structure Outcome where
  ret : Returned
  final : Conn
  deriving DecidableEq

/-- The value `req` of `establishProxyConnect` (lines 78 to 83): the request,
with a `Proxy-Authorization` line when `proxyAuth` is not empty. -/
def connectRequest (farendAddress proxyAuth : Bytes) : Bytes :=
  if proxyAuth ≠ [] then
    Sprintf (str "CONNECT %s HTTP/1.1\nHost: %s\nProxy-Authorization: %s\n\n")
      [.s farendAddress, .s farendAddress, .s proxyAuth]
  else
    Sprintf (str "CONNECT %s HTTP/1.1\nHost: %s\n\n") [.s farendAddress, .s farendAddress]

/-- Function `establishProxyConnect` of `proxy.go`; `now` is `time.Now()`.  The
result is `none` only if the model of `ReadString` ran out of fuel. -/
def establishProxyConnect (now : Nat) (conn : Conn) (farendAddress proxyAuth : Bytes) :
    Option Outcome :=
  let (err, c1) := conn.SetDeadline (some (now + ProxyDeadlineDuration))
  match err with
  | some e => some ⟨.values none (some (.conn e)), c1⟩
  | none =>
    let req := connectRequest farendAddress proxyAuth
    let ((_, err), c2) := c1.Write req
    match err with
    | some e => some ⟨.values none (some (.conn e)), c2⟩
    | none =>
      let readBuf := NewReader
      match ReadString readBuf c2 10 with
      | none => none
      | some ((respLine, err), _, c3) =>
        match err with
        | some e =>
          some ⟨.values none (some (WithMessage e (str "failed to read CONNECT response line"))), c3⟩
        | none =>
          if !HasPrefix respLine (str "HTTP/1.1 ") then
            some ⟨.values none
              (some (Errorf (str "unexpected CONNECT response line from proxy: %s") [.s respLine])),
              c3⟩
          else
            match sliceFrom? respLine 9 with
            | none => some ⟨.panic, c3⟩
            | some tail =>
              let pos := IndexByte tail 32
              if pos = -1 then
                some ⟨.values none
                  (some (Errorf (str "invalid CONNECT response line from proxy: %s") [.s respLine])),
                  c3⟩
              else
                match slice? respLine 9 (9 + pos) with
                | none => some ⟨.panic, c3⟩
                | some code =>
                  let (respCode, err) := ParseInt code 10 16
                  if err ≠ none then
                    some ⟨.values none
                      (some (Errorf (str "invalid CONNECT response code from proxy: %s")
                        [.s respLine])),
                      c3⟩
                  else if respCode ≠ 200 then
                    some ⟨.values none
                      (some (Errorf (str "expected 200 CONNECT response code but got %d")
                        [.d respCode])),
                      c3⟩
                  else
                    let (_, c4) := c3.SetDeadline none
                    some ⟨.values (some conn.id) none, c4⟩

/-- A dial operation: the address, and whether it was a TLS dial. -/
structure DialOp where
  tls : Bool
  address : Bytes
  deriving DecidableEq

/-- What a call of `DialViaProxy` leaves behind: how it ended, the dials
performed, and the final state of the connection it opened, if it opened one. -/
structure DialOutcome where
  ret : Returned
  dials : List DialOp
  opened : Option Conn
  deriving DecidableEq

/-- The value `proxyAuth` that `DialViaProxy` computes from the URL. -/
def proxyAuthOf (url : URL) : Bytes :=
  match url.User with
  | some u => str "Basic " ++ EncodeToString u.String
  | none => []

/-- The handshake part of `DialViaProxy`, on the connection a dial returned. -/
def dialed (net : Net) (op : DialOp) (farendAddress proxyAuth : Bytes) (conn : Conn) :
    Option DialOutcome :=
  (establishProxyConnect net.now conn farendAddress proxyAuth).map fun o =>
    ⟨o.ret, [op], some o.final⟩

/-- Function `DialViaProxy` of `proxy.go`. -/
def DialViaProxy (net : Net) (url : URL) (farendAddress : Bytes) : Option DialOutcome :=
  let proxyAddress := JoinHostPort url.Hostname url.Port
  let proxyAuth := proxyAuthOf url
  if url.Scheme = str "http" then
    match net.Dial proxyAddress with
    | .error e =>
      some ⟨.values none (some (WithMessage (.conn e) (str "Failed to connect to proxy"))),
        [⟨false, proxyAddress⟩], none⟩
    | .ok conn => dialed net ⟨false, proxyAddress⟩ farendAddress proxyAuth conn
  else if url.Scheme = str "https" then
    match net.DialTLS proxyAddress with
    | .error e =>
      some ⟨.values none (some (WithMessage (.conn e) (str "Failed to connect via TLS to proxy"))),
        [⟨true, proxyAddress⟩], none⟩
    | .ok conn => dialed net ⟨true, proxyAddress⟩ farendAddress proxyAuth conn
  else
    some ⟨.values none
      (some (Errorf (str "URL scheme \x27%v\x27 not supported for proxy") [.s url.Scheme])),
      [], none⟩

/-! ## Notions used to state the properties -/

/-- A decimal digit `'0'..'9'`. -/
def IsDigit (c : Byte) : Prop := 48 ≤ c.val ∧ c.val ≤ 57

instance (c : Byte) : Decidable (IsDigit c) := by unfold IsDigit; infer_instance

/-- Value of a run of decimal digits read after the value `n`. -/
def decimalFrom (n : Nat) (ds : Bytes) : Nat := ds.foldl (fun v c => v * 10 + (c.val - 48)) n

/-- Value of a run of decimal digits. -/
def decimalValue (ds : Bytes) : Nat := decimalFrom 0 ds

/-- The text `s` is a base-10 integer representable in 16 bits: an optional
sign, at least one digit and nothing else, with a value from -32768 to 32767. -/
def IsInt16Text (s : Bytes) : Prop :=
  ∃ sign ds : Bytes, s = sign ++ ds ∧ (sign = [] ∨ sign = [43] ∨ sign = [45]) ∧ ds ≠ [] ∧
    (∀ c ∈ ds, IsDigit c) ∧
    (if sign = [45] then decimalValue ds ≤ 32768 else decimalValue ds ≤ 32767)

/-- The three decimal digits of a code from 100 to 999. -/
def decimal3 (code : Nat) : Bytes :=
  [Fin.ofNat (48 + code / 100), Fin.ofNat (48 + code / 10 % 10), Fin.ofNat (48 + code % 10)]

/-- A connection for the examples: number 7, every deadline and write call
succeeds, the transport delivers `chunks` and then reports the end of the
stream. -/
def proxyConn (chunks : List Bytes) : Conn :=
  { id := 7, incoming := chunks, readErr := .EOF, deadlineResults := [], writeResults := [],
    deadline := none, sent := [], closed := false, log := [] }

/-- The connection once the deadline is armed. -/
def Conn.armed (c : Conn) (now : Nat) : Conn :=
  (c.SetDeadline (some (now + ProxyDeadlineDuration))).2

/-- The connection once the deadline is armed and the request written. -/
def Conn.requested (c : Conn) (now : Nat) (f a : Bytes) : Conn :=
  ((c.armed now).Write (connectRequest f a)).2

/-- The connection `c2` is `c` after some reads that took the bytes `taken`
from the transport: the chunks to deliver lost `taken`, the log grew by reads,
everything else is as it was. -/
structure AfterReads (c c2 : Conn) (taken : Bytes) : Prop where
  id : c2.id = c.id
  readErr : c2.readErr = c.readErr
  deadlineResults : c2.deadlineResults = c.deadlineResults
  writeResults : c2.writeResults = c.writeResults
  deadline : c2.deadline = c.deadline
  sent : c2.sent = c.sent
  closed : c2.closed = c.closed
  log : ∃ ns : List Nat, c2.log = c.log ++ ns.map Op.Read
  pending : c.pending = taken ++ c2.pending

/-- What `ReadSlice` and `ReadString` guarantee about their result `(frag, e)`,
the reader `b1` and the connection `c1` they leave, from the reader `b` and the
connection `c`; `skip` is what the caller already holds of the line. -/
structure ReadPost (delim : Byte) (skip : Bytes) (b : Reader) (c : Conn) (frag : Bytes)
    (e : Option GoError) (b1 : Reader) (c1 : Conn) : Prop where
  after : ∃ data, AfterReads c c1 data ∧ skip ++ b.buf ++ data = frag ++ b1.buf
  err : b1.err ≠ some .ErrBufferFull
  line : e = none → ∃ pre, frag = pre ++ [delim] ∧ delim ∉ pre
  fail : e ≠ none → delim ∉ frag ∧ b1.buf = []
  cause : ∀ x, e = some x →
    b.err = some x ∨ x = .conn c.readErr ∨ x = .ErrNoProgress ∨ x = .ErrBufferFull
  pendingErr : ∀ x, b1.err = some x → b.err = some x ∨ x = .conn c.readErr ∨ x = .ErrNoProgress

/-- The bytes handed to `Write`, for each write of a log. -/
def writesOf (log : List Op) : List Bytes :=
  log.filterMap fun op => match op with
    | .Write p => some p
    | _ => none

/-- The dial of `DialViaProxy` for `url` opens the connection `conn0`: a plain
dial for scheme `http`, a TLS dial for scheme `https`. -/
def Opens (net : Net) (url : URL) (conn0 : Conn) : Prop :=
  (url.Scheme = str "http" ∧ net.Dial (JoinHostPort url.Hostname url.Port) = .ok conn0) ∨
  (url.Scheme = str "https" ∧ net.DialTLS (JoinHostPort url.Hostname url.Port) = .ok conn0)

/-- A network for the examples: every dial opens the connection `proxyConn
chunks`, the clock shows 0. -/
def proxyNet (chunks : List Bytes) : Net :=
  { Dial := fun _ => .ok (proxyConn chunks), DialTLS := fun _ => .ok (proxyConn chunks), now := 0 }

/-- A proxy URL for the examples: `http://[user@]proxy.example:3128`. -/
def proxyURL (user : Option Userinfo) : URL :=
  { Scheme := str "http", User := user, Hostname := str "proxy.example", Port := str "3128" }

/-- The lines of a text: what stands between its newlines (a text that ends in
a newline has an empty last line). -/
def splitLines : Bytes → List Bytes
  | [] => [[]]
  | c :: t =>
    if c = 10 then [] :: splitLines t
    else
      match splitLines t with
      | [] => [[c]]
      | l :: ls => (c :: l) :: ls

/-- The lines of a request that begin with `Proxy-Authorization:`. -/
def authorizationLines (req : Bytes) : List Bytes :=
  (splitLines req).filter fun l => HasPrefix l (str "Proxy-Authorization:")

/-- The four errors of the validation of a line. -/
inductive ValidationKind where
  | unexpectedLine
  | invalidLine
  | invalidCode
  | rejectedCode
  deriving DecidableEq

/-- The text `text` is the error of kind `kind` for the line `line`: one of the
three messages that quote the raw line, or the message that reports a code
other than 200. -/
def IsValidationError (line : Bytes) : ValidationKind → Bytes → Prop
  | .unexpectedLine, text => text = str "unexpected CONNECT response line from proxy: " ++ line
  | .invalidLine, text => text = str "invalid CONNECT response line from proxy: " ++ line
  | .invalidCode, text => text = str "invalid CONNECT response code from proxy: " ++ line
  | .rejectedCode, text =>
    ∃ k : Int, k ≠ 200 ∧ text = str "expected 200 CONNECT response code but got " ++ fmtInt k

/-- The code texts that stand for 200: an optional `+`, any number of `0`,
then `200`. -/
def Is200Text (code : Bytes) : Prop :=
  ∃ sign zeros : Bytes, code = sign ++ zeros ++ str "200" ∧ (sign = [] ∨ sign = [43]) ∧
    ∀ z ∈ zeros, z = 48

/-- The lines the validation accepts: `HTTP/1.1 `, a code text that stands for
200, a space, and any text up to the newline that ends the line. -/
def AcceptedLine (line : Bytes) : Prop :=
  ∃ code text : Bytes, Is200Text code ∧
    line = str "HTTP/1.1 " ++ code ++ [32] ++ text ++ [10] ∧ (10 : Byte) ∉ text

/-- A connection for the examples like `proxyConn chunks`, with the outcomes
`deadlines` of its deadline calls and `writes` of its write calls. -/
def faultyConn (chunks : List Bytes) (deadlines : List (Option ConnError))
    (writes : List (Nat × Option ConnError)) : Conn :=
  { proxyConn chunks with deadlineResults := deadlines, writeResults := writes }

/-- Every successful read of the connection delivers at least one byte: no
chunk it has to deliver is empty. -/
def Conn.Delivers (c : Conn) : Prop := ∀ ch ∈ c.incoming, ch ≠ []

/-- The contract of `io.Writer` on the outcome `r` (the number of bytes taken
and the error) of a write of `p`: "Write must return a non-nil error if it
returns n < len(p)". -/
def WriterContract (p : Bytes) (r : Nat × Option ConnError) : Prop :=
  r.1 < p.length → r.2 ≠ none

/-- The 6-bit value of a character of the alphabet of `base64.StdEncoding`. -/
def decodeStdChar (c : Byte) : Option Nat := indexOf? encodeStd c

/-- Decoding of the quanta of four characters: a quantum gives three bytes, a
last quantum padded with one or two `=` gives two bytes or one. -/
def decodeQuanta : Bytes → Option Bytes
  | a :: b :: c :: d :: t =>
    match decodeStdChar a, decodeStdChar b with
    | some va, some vb =>
      if c = 61 ∧ d = 61 ∧ t = [] then
        some [Fin.ofNat ((va * 262144 + vb * 4096) / 65536 % 256)]
      else
        match decodeStdChar c with
        | none => none
        | some vc =>
          if d = 61 ∧ t = [] then
            let v := va * 262144 + vb * 4096 + vc * 64
            some [Fin.ofNat (v / 65536 % 256), Fin.ofNat (v / 256 % 256)]
          else
            match decodeStdChar d with
            | none => none
            | some vd =>
              let v := va * 262144 + vb * 4096 + vc * 64 + vd
              (decodeQuanta t).map fun rest =>
                Fin.ofNat (v / 65536 % 256) :: Fin.ofNat (v / 256 % 256) :: Fin.ofNat (v % 256)
                  :: rest
    | _, _ => none
  | [] => some []
  | _ => none

/-- Library `base64.StdEncoding.DecodeString`, the decoding a proxy applies to
the credential: carriage returns and newlines are skipped, the rest is decoded
quantum by quantum with its padding; `none` is a corrupt input. -/
def DecodeString (s : Bytes) : Option Bytes :=
  decodeQuanta (s.filter fun c => decide (c ≠ 10 ∧ c ≠ 13))

/-! ## Lemmas on strings and slices -/

theorem HasPrefix_iff (s p : Bytes) : HasPrefix s p = true ↔ p <+: s := by
  unfold HasPrefix
  rw [List.prefix_iff_eq_take]
  constructor
  · intro h
    simp only [Bool.and_eq_true, decide_eq_true_eq] at h
    exact h.2.symm
  · intro h
    simp only [Bool.and_eq_true, decide_eq_true_eq]
    refine ⟨?_, h.symm⟩
    have := congrArg List.length h
    simp only [List.length_take] at this
    omega

theorem HasPrefix_append (p t : Bytes) : HasPrefix (p ++ t) p = true :=
  (HasPrefix_iff _ _).2 (List.prefix_append p t)

theorem HasPrefix_cons_ne {a b : Byte} (s p : Bytes) (h : a ≠ b) :
    HasPrefix (a :: s) (b :: p) = false := by
  rw [← Bool.not_eq_true, HasPrefix_iff]
  intro hp
  obtain ⟨t, ht⟩ := hp
  simp only [List.cons_append, List.cons.injEq] at ht
  exact h ht.1.symm

theorem sliceFrom?_append (p t : Bytes) : sliceFrom? (p ++ t) (p.length : Int) = some t := by
  simp [sliceFrom?]

theorem sliceFrom?_of_HasPrefix {s p : Bytes} (h : HasPrefix s p = true) :
    sliceFrom? s (p.length : Int) = some (s.drop p.length) := by
  unfold HasPrefix at h
  simp only [Bool.and_eq_true, decide_eq_true_eq] at h
  simp [sliceFrom?, h.1]

theorem indexOf?_none {s : Bytes} {c : Byte} (h : c ∉ s) : indexOf? s c = none := by
  induction s with
  | nil => rfl
  | cons b t ih =>
    simp only [List.mem_cons, not_or] at h
    simp [indexOf?, Ne.symm h.1, ih h.2]

theorem not_mem_of_indexOf?_none {s : Bytes} {c : Byte} (h : indexOf? s c = none) : c ∉ s := by
  induction s with
  | nil => simp
  | cons b t ih =>
    unfold indexOf? at h
    by_cases hb : b = c
    · simp [hb] at h
    · simp only [hb, if_false, Option.map_eq_none'] at h
      simp only [List.mem_cons, not_or]
      exact ⟨Ne.symm hb, ih h⟩

theorem indexOf?_append {a : Bytes} {c : Byte} (t : Bytes) (h : c ∉ a) :
    indexOf? (a ++ c :: t) c = some a.length := by
  induction a with
  | nil => simp [indexOf?]
  | cons b u ih =>
    simp only [List.mem_cons, not_or] at h
    simp [indexOf?, Ne.symm h.1, ih h.2]

theorem indexOf?_mem {s : Bytes} {c : Byte} {i : Nat} (h : indexOf? s c = some i) : c ∈ s := by
  by_contra hc
  rw [indexOf?_none hc] at h
  cases h

theorem indexOf?_some {s : Bytes} {c : Byte} {i : Nat} (h : indexOf? s c = some i) :
    ∃ p q, s = p ++ c :: q ∧ c ∉ p ∧ p.length = i := by
  induction s generalizing i with
  | nil => cases h
  | cons b t ih =>
    unfold indexOf? at h
    by_cases hb : b = c
    · simp only [hb, if_true, Option.some.injEq] at h
      exact ⟨[], t, by simp [hb], by simp, by simpa using h⟩
    · simp only [hb, if_false, Option.map_eq_some'] at h
      obtain ⟨j, hj, rfl⟩ := h
      obtain ⟨p, q, h1, h2, h3⟩ := ih hj
      refine ⟨b :: p, q, by simp [h1], ?_, by simp [h3]⟩
      simp only [List.mem_cons, not_or]
      exact ⟨Ne.symm hb, h2⟩

theorem indexOf?_lt {s : Bytes} {c : Byte} {i : Nat} (h : indexOf? s c = some i) :
    i < s.length := by
  obtain ⟨p, q, h1, -, h3⟩ := indexOf?_some h
  rw [h1, ← h3]
  simp

theorem slice?_mid (p a t : Bytes) :
    slice? (p ++ (a ++ t)) (p.length : Int) ((p.length : Int) + (a.length : Int)) = some a := by
  have h1 : ((p.length : Int) + (a.length : Int)).toNat = p.length + a.length := by omega
  have h2 : (p.length : Int).toNat = p.length := by omega
  simp only [slice?, h1, h2]
  rw [if_pos]
  · rw [← List.append_assoc, List.take_left' (by simp), List.drop_left' rfl]
  · simp only [List.length_append]; omega

theorem take_succ_append (l : Bytes) (x : Byte) (q : Bytes) :
    (l ++ x :: q).take (l.length + 1) = l ++ [x] := by
  induction l with
  | nil => simp
  | cons a t ih => simp [ih]

theorem drop_succ_append (l : Bytes) (x : Byte) (q : Bytes) :
    (l ++ x :: q).drop (l.length + 1) = q := by
  induction l with
  | nil => simp
  | cons a t ih => simp [ih]

theorem str_http_length : (str "HTTP/1.1 ").length = 9 := by decide

theorem ne_of_get?_ne {x y : Bytes} (i : Nat) {p q : Byte} (hx : x.get? i = some p)
    (hy : y.get? i = some q) (hpq : p ≠ q) : x ≠ y := by
  intro e
  rw [e, hy] at hx
  exact hpq (Option.some.inj hx).symm

/-- The slices of the validation are within bounds. -/
theorem slices_in_bounds (line : Bytes) (hp : HasPrefix line (str "HTTP/1.1 ") = true) :
    ∃ tail, sliceFrom? line 9 = some tail ∧
      (IndexByte tail 32 ≠ -1 → ∃ code, slice? line 9 (9 + IndexByte tail 32) = some code) := by
  have hs := sliceFrom?_of_HasPrefix hp
  rw [str_http_length] at hs
  simp only [Nat.cast_ofNat] at hs
  refine ⟨_, hs, fun hne => ?_⟩
  cases hi : indexOf? (line.drop 9) 32 with
  | none => exact (hne (by simp [IndexByte, hi])).elim
  | some i =>
    have hpos : IndexByte (line.drop 9) 32 = (i : Int) := by simp [IndexByte, hi]
    have hlt := indexOf?_lt hi
    simp only [List.length_drop] at hlt
    refine ⟨(line.take (9 + i)).drop 9, ?_⟩
    have e1 : (9 + (i : Int)).toNat = 9 + i := by omega
    have e2 : (9 : Int).toNat = 9 := rfl
    simp only [hpos, slice?, e1, e2]
    rw [if_pos]
    omega

theorem tail_of_line {head tail pre : Bytes} (h : head ++ 32 :: tail = pre ++ [10])
    (hpre : (10 : Byte) ∉ pre) : ∃ text, tail = text ++ [10] ∧ (10 : Byte) ∉ text := by
  rcases List.eq_nil_or_concat tail with rfl | ⟨text, x, hx⟩
  · have h2 : head ++ [32] = pre ++ [10] := h
    have := (List.append_inj' h2 rfl).2
    simp at this
  · rw [List.concat_eq_append] at hx
    subst hx
    have h2 : (head ++ 32 :: text) ++ [x] = pre ++ [10] := by
      rw [← h]; simp
    obtain ⟨h3, h4⟩ := List.append_inj' h2 rfl
    simp only [List.cons.injEq, and_true] at h4
    subst h4
    refine ⟨text, rfl, ?_⟩
    intro hm
    apply hpre
    rw [← h3]
    simp [hm]

/-! ## Lemmas on `ParseInt` and on the verb `%d` -/

theorem decimalFrom_ge (n : Nat) (ds : Bytes) : n ≤ decimalFrom n ds := by
  induction ds generalizing n with
  | nil => simp [decimalFrom]
  | cons c t ih =>
    have := ih (n * 10 + (c.val - 48))
    simp only [decimalFrom, List.foldl_cons] at this ⊢
    omega

theorem digitVal_of_digit {c : Byte} (h : IsDigit c) : digitVal c = some (c.val - 48) := by
  unfold IsDigit at h
  simp [digitVal, h]

theorem digitVal_lt_ten {c : Byte} {d : Nat} (h : digitVal c = some d) (hd : d < 10) :
    IsDigit c ∧ d = c.val - 48 := by
  unfold digitVal at h
  unfold IsDigit
  split at h
  · simp only [Option.some.injEq] at h; omega
  · split at h
    · simp only [Option.some.injEq] at h; omega
    · split at h
      · simp only [Option.some.injEq] at h; omega
      · cases h

theorem parseUintLoop_spec (ds : Bytes) (n : Nat) (hn : n ≤ 65535) :
    ((parseUintLoop 10 (maxUint64 / 10 + 1) 65535 ds n).2 = none ↔
      ((∀ c ∈ ds, IsDigit c) ∧ decimalFrom n ds ≤ 65535)) ∧
    ((parseUintLoop 10 (maxUint64 / 10 + 1) 65535 ds n).2 = none →
      (parseUintLoop 10 (maxUint64 / 10 + 1) 65535 ds n).1 = decimalFrom n ds) ∧
    ((parseUintLoop 10 (maxUint64 / 10 + 1) 65535 ds n).2 = some .ErrRange →
      (parseUintLoop 10 (maxUint64 / 10 + 1) 65535 ds n).1 = 65535) := by
  induction ds generalizing n with
  | nil => simp [parseUintLoop, decimalFrom, hn]
  | cons c t ih =>
    have hcut : maxUint64 / 10 + 1 = 1844674407370955162 := by decide
    rw [hcut] at ih ⊢
    unfold parseUintLoop
    cases hdv : digitVal c with
    | none =>
      simp only [reduceCtorEq, false_iff, not_and, false_imp_iff, and_true, true_and]
      refine ⟨fun hall => ?_, fun h => by cases h⟩
      have := digitVal_of_digit (hall c (List.mem_cons_self _ _))
      rw [this] at hdv; cases hdv
    | some d =>
      simp only []
      by_cases hd10 : d ≥ 10
      · simp only [hd10, if_true, reduceCtorEq, false_iff, not_and, false_imp_iff, and_true,
          true_and]
        refine ⟨fun hall => ?_, fun h => by cases h⟩
        have := digitVal_of_digit (hall c (List.mem_cons_self _ _))
        rw [this] at hdv
        have hc := hall c (List.mem_cons_self _ _)
        unfold IsDigit at hc
        simp only [Option.some.injEq] at hdv
        omega
      · have hlt : d < 10 := by omega
        obtain ⟨hdig, hval⟩ := digitVal_lt_ten hdv hlt
        have hncut : ¬ (n ≥ 1844674407370955162) := by omega
        simp only [hd10, if_false, hncut]
        have e1 : (n * 10) % 2 ^ 64 = n * 10 := by omega
        have e2 : (n * 10 + d) % 2 ^ 64 = n * 10 + d := by omega
        simp only [e1, e2]
        have hfold : decimalFrom n (c :: t) = decimalFrom (n * 10 + d) t := by
          simp [decimalFrom, hval]
        by_cases hbig : n * 10 + d > 65535
        · have hcond : (n * 10 + d < n * 10 ∨ n * 10 + d > 65535) := Or.inr hbig
          simp only [hcond, if_true, reduceCtorEq, false_iff, not_and, false_imp_iff, true_and,
            imp_self, and_true]
          intro _
          have := decimalFrom_ge (n * 10 + d) t
          rw [hfold]; omega
        · have hcond : ¬ (n * 10 + d < n * 10 ∨ n * 10 + d > 65535) := by omega
          simp only [hcond, if_false]
          have hle : n * 10 + d ≤ 65535 := by omega
          obtain ⟨i1, i2, i3⟩ := ih (n * 10 + d) hle
          refine ⟨?_, ?_, i3⟩
          · rw [i1, hfold]
            simp only [List.mem_cons, forall_eq_or_imp, hdig, true_and]
          · intro h; rw [i2 h, hfold]

theorem ParseUint_spec (body : Bytes) :
    ((ParseUint body 10 16).2 = none ↔
      (body ≠ [] ∧ (∀ c ∈ body, IsDigit c) ∧ decimalValue body ≤ 65535)) ∧
    ((ParseUint body 10 16).2 = none → (ParseUint body 10 16).1 = decimalValue body) ∧
    ((ParseUint body 10 16).2 = some .ErrRange → (ParseUint body 10 16).1 = 65535) := by
  unfold ParseUint
  by_cases hb : body = []
  · simp [hb]
  · have h := parseUintLoop_spec body 0 (by omega)
    have e : (2 : Nat) ^ 16 - 1 = 65535 := by decide
    simp only [hb, if_false, e, ne_eq, not_false_eq_true, true_and]
    exact h

/-- The three cases of the sign of `ParseInt`. -/
theorem ParseInt_cons (c : Byte) (t : Bytes) :
    ParseInt (c :: t) 10 16 =
      (let neg : Bool := decide (c = 45)
       let body : Bytes := if c = 43 ∨ c = 45 then t else c :: t
       if (ParseUint body 10 16).2 ≠ none ∧ (ParseUint body 10 16).2 ≠ some .ErrRange then
         (0, (ParseUint body 10 16).2)
       else if !neg ∧ (ParseUint body 10 16).1 ≥ 32768 then (32767, some .ErrRange)
       else if neg ∧ (ParseUint body 10 16).1 > 32768 then (-32768, some .ErrRange)
       else (if neg then -((ParseUint body 10 16).1 : Int) else ((ParseUint body 10 16).1 : Int),
         none)) := by
  rfl

theorem ParseInt_body {c : Byte} {t body : Bytes} {neg : Bool}
    (hneg : neg = decide (c = 45)) (hbody : body = if c = 43 ∨ c = 45 then t else c :: t) :
    ((ParseInt (c :: t) 10 16).2 = none ↔
      (body ≠ [] ∧ (∀ x ∈ body, IsDigit x) ∧
        (if neg then decimalValue body ≤ 32768 else decimalValue body ≤ 32767))) ∧
    ((ParseInt (c :: t) 10 16).2 = none →
      (ParseInt (c :: t) 10 16).1
        = if neg then -(decimalValue body : Int) else (decimalValue body : Int)) := by
  obtain ⟨u1, u2, u3⟩ := ParseUint_spec body
  rw [ParseInt_cons]
  simp only [← hneg, ← hbody]
  rcases hU : ParseUint body 10 16 with ⟨un, err⟩
  rw [hU] at u1 u2 u3
  simp only at u1 u2 u3 ⊢
  cases err with
  | none =>
    have hv := u2 rfl
    have hd := u1.1 rfl
    subst hv
    simp only [ne_eq, not_true_eq_false, false_and, if_false]
    cases neg <;> simp <;> split_ifs <;> simp_all <;> omega
  | some e =>
    have hnd : ¬ (body ≠ [] ∧ (∀ c ∈ body, IsDigit c) ∧ decimalValue body ≤ 65535) := by
      intro h; have := u1.2 h; cases this
    cases e with
    | ErrSyntax =>
      rw [if_pos (by simp)]
      refine ⟨⟨fun h => (by cases h), fun h => (hnd ⟨h.1, h.2.1, ?_⟩).elim⟩,
        fun h => (by cases h)⟩
      have := h.2.2
      split at this <;> omega
    | ErrRange =>
      have hv := u3 rfl
      subst hv
      simp only [ne_eq, reduceCtorEq, not_false_eq_true, not_true_eq_false, and_false, if_false]
      cases neg
      · simp only [Bool.not_false, Bool.false_eq_true, if_false, false_and]
        simp
        intro h1 h2
        by_contra h3
        exact hnd ⟨h1, h2, by omega⟩
      · simp
        intro h1 h2
        by_contra h3
        exact hnd ⟨h1, h2, by omega⟩

theorem ParseInt_ok_iff (s : Bytes) : (ParseInt s 10 16).2 = none ↔ IsInt16Text s := by
  cases s with
  | nil =>
    constructor
    · intro h; cases h
    · rintro ⟨sign, ds, h, _, hne, _⟩
      have := congrArg List.length h
      cases ds with
      | nil => exact (hne rfl).elim
      | cons x y => simp only [List.length_append, List.length_cons, List.length_nil] at this; omega
  | cons c t =>
    obtain ⟨hb, -⟩ := ParseInt_body (c := c) (t := t) rfl rfl
    rw [hb]
    constructor
    · rintro ⟨h1, h2, h3⟩
      by_cases h43 : c = 43
      · subst h43
        simp only [true_or, if_true] at h1 h2 h3
        exact ⟨[43], t, rfl, Or.inr (Or.inl rfl), h1, h2, by simpa using h3⟩
      · by_cases h45 : c = 45
        · subst h45
          simp only [or_true, if_true, decide_True] at h1 h2 h3
          exact ⟨[45], t, rfl, Or.inr (Or.inr rfl), h1, h2, by simpa using h3⟩
        · simp only [h43, h45, or_self, if_false, decide_False, Bool.false_eq_true] at h1 h2 h3
          exact ⟨[], c :: t, rfl, Or.inl rfl, h1, h2, by simpa using h3⟩
    · rintro ⟨sign, ds, h, hs, hne, hdig, hval⟩
      rcases hs with hs | hs | hs
      · subst hs
        simp only [List.nil_append] at h
        subst h
        have hc := hdig c (List.mem_cons_self _ _)
        have h43 : c ≠ 43 := by rintro rfl; revert hc; decide
        have h45 : c ≠ 45 := by rintro rfl; revert hc; decide
        simp only [h43, h45, or_self, if_false, decide_False, Bool.false_eq_true]
        exact ⟨hne, hdig, by simpa using hval⟩
      · subst hs
        simp only [List.singleton_append, List.cons.injEq] at h
        obtain ⟨rfl, rfl⟩ := h
        simp only [true_or, if_true]
        refine ⟨hne, hdig, ?_⟩
        have : ¬ ((43 : Byte) = 45) := by decide
        simpa [this] using hval
      · subst hs
        simp only [List.singleton_append, List.cons.injEq] at h
        obtain ⟨rfl, rfl⟩ := h
        simp only [or_true, if_true, decide_True]
        exact ⟨hne, hdig, by simpa using hval⟩

theorem ParseInt_digits {ds : Bytes} (hne : ds ≠ []) (hdig : ∀ c ∈ ds, IsDigit c)
    (hval : decimalValue ds ≤ 32767) : ParseInt ds 10 16 = ((decimalValue ds : Int), none) := by
  cases ds with
  | nil => exact (hne rfl).elim
  | cons c t =>
    obtain ⟨hb, hv⟩ := ParseInt_body (c := c) (t := t) rfl rfl
    have hc := hdig c (List.mem_cons_self _ _)
    have h43 : c ≠ 43 := by rintro rfl; revert hc; decide
    have h45 : c ≠ 45 := by rintro rfl; revert hc; decide
    simp only [h43, h45, or_self, if_false, decide_False, Bool.false_eq_true] at hb hv
    have h2 : (ParseInt (c :: t) 10 16).2 = none := hb.2 ⟨hne, hdig, hval⟩
    have h1 := hv h2
    exact Prod.ext h1 h2

theorem not_mem_of_digits {ds : Bytes} (h : ∀ c ∈ ds, IsDigit c) : (32 : Byte) ∉ ds := by
  intro hm
  have := h 32 hm
  revert this
  decide

theorem fmtInt_three {code : Nat} (h100 : 100 ≤ code) (h999 : code ≤ 999) :
    fmtInt (code : Int) = decimal3 code := by
  have h0 : ¬ ((code : Int) < 0) := by omega
  have h1 : code ≥ 10 := by omega
  have h2 : code / 10 ≥ 10 := by omega
  have h3 : ¬ (code / 10 / 10 ≥ 10) := by omega
  have h4 : code / 10 / 10 = code / 100 := by omega
  unfold fmtInt
  rw [if_neg h0, Int.natAbs_ofNat, fmtDigits, if_pos h1, fmtDigits, if_pos h2, fmtDigits, if_neg h3,
    h4]
  rfl

theorem decimal3_spec {code : Nat} (h100 : 100 ≤ code) (h999 : code ≤ 999) :
    (∀ c ∈ decimal3 code, IsDigit c) ∧ decimalValue (decimal3 code) = code := by
  have e : ∀ d : Nat, d < 10 → ((Fin.ofNat (48 + d) : Byte)).val = 48 + d := by
    intro d hd
    show (48 + d) % 256 = 48 + d
    omega
  have a1 := e (code / 100) (by omega)
  have a2 := e (code / 10 % 10) (by omega)
  have a3 := e (code % 10) (by omega)
  constructor
  · intro c hc
    simp only [decimal3, List.mem_cons, List.mem_singleton, List.not_mem_nil, or_false] at hc
    unfold IsDigit
    rcases hc with rfl | rfl | rfl <;> omega
  · simp only [decimalValue, decimalFrom, decimal3, List.foldl_cons, List.foldl_nil, a1, a2, a3]
    omega

theorem decimalFrom_append (n : Nat) (a b : Bytes) :
    decimalFrom n (a ++ b) = decimalFrom (decimalFrom n a) b := by
  simp [decimalFrom, List.foldl_append]

theorem decimalFrom_zeros {zeros : Bytes} (h : ∀ z ∈ zeros, z = 48) : decimalFrom 0 zeros = 0 := by
  induction zeros with
  | nil => rfl
  | cons z t ih =>
    have hz : z = 48 := h z (List.mem_cons_self _ _)
    subst hz
    have := ih (fun y hy => h y (List.mem_cons_of_mem _ hy))
    simpa [decimalFrom] using this

theorem digits_200 {ds : Bytes} (hdig : ∀ c ∈ ds, IsDigit c) (hval : decimalFrom 0 ds = 200) :
    ∃ zeros : Bytes, ds = zeros ++ str "200" ∧ ∀ z ∈ zeros, z = 48 := by
  induction ds with
  | nil => simp [decimalFrom] at hval
  | cons c t ih =>
    have hc : IsDigit c := hdig c (List.mem_cons_self _ _)
    have ht : ∀ x ∈ t, IsDigit x := fun x hx => hdig x (List.mem_cons_of_mem _ hx)
    unfold IsDigit at hc
    by_cases h0 : c.val = 48
    · have hc48 : c = 48 := Fin.ext h0
      subst hc48
      have hv : decimalFrom 0 t = 200 := by simpa [decimalFrom] using hval
      obtain ⟨zeros, hz, hall⟩ := ih ht hv
      refine ⟨48 :: zeros, by rw [hz]; rfl, ?_⟩
      intro z hz2
      rcases List.mem_cons.1 hz2 with h | h
      · exact h
      · exact hall z h
    · refine ⟨[], ?_, by simp⟩
      have hstep : ∀ (n : Nat) (x : Byte) (u : Bytes),
          decimalFrom n (x :: u) = decimalFrom (n * 10 + (x.val - 48)) u := fun _ _ _ => rfl
      rw [hstep] at hval
      match t, ht, hval with
      | [], _, hval => simp only [decimalFrom, List.foldl_nil] at hval; omega
      | [c1], ht, hval =>
        have h1 := ht c1 (by simp)
        unfold IsDigit at h1
        rw [hstep] at hval
        simp only [decimalFrom, List.foldl_nil] at hval
        omega
      | [c1, c2], ht, hval =>
        have h1 := ht c1 (by simp)
        have h2 := ht c2 (by simp)
        unfold IsDigit at h1 h2
        rw [hstep, hstep] at hval
        simp only [decimalFrom, List.foldl_nil] at hval
        have e0 : c = 50 := Fin.ext (by show c.val = 50; omega)
        have e1 : c1 = 48 := Fin.ext (by show c1.val = 48; omega)
        have e2 : c2 = 48 := Fin.ext (by show c2.val = 48; omega)
        subst e0 e1 e2
        decide
      | c1 :: c2 :: c3 :: u, ht, hval =>
        have h1 := ht c1 (by simp)
        have h2 := ht c2 (by simp)
        have h3 := ht c3 (by simp)
        unfold IsDigit at h1 h2 h3
        rw [hstep, hstep, hstep] at hval
        have := decimalFrom_ge
          ((((0 * 10 + (c.val - 48)) * 10 + (c1.val - 48)) * 10 + (c2.val - 48)) * 10
            + (c3.val - 48)) u
        omega

/-- `ParseInt` reads a text as 200 exactly when it is an optional `+`, any
number of `0`, and `200`. -/
theorem ParseInt_200_iff (code : Bytes) : ParseInt code 10 16 = (200, none) ↔ Is200Text code := by
  constructor
  · intro h
    cases code with
    | nil => cases h
    | cons c t =>
      obtain ⟨hb, hv⟩ := ParseInt_body (c := c) (t := t) rfl rfl
      have h2 : (ParseInt (c :: t) 10 16).2 = none := by rw [h]
      have h1 : (ParseInt (c :: t) 10 16).1 = 200 := by rw [h]
      obtain ⟨hne, hdig, hrange⟩ := hb.1 h2
      have hval := hv h2
      rw [h1] at hval
      by_cases h45 : c = 45
      · subst h45
        simp only [decide_True, if_true] at hval
        omega
      · simp only [h45, decide_False, Bool.false_eq_true, if_false, or_false] at hval hdig
        have hval2 : decimalFrom 0 (if c = 43 then t else c :: t) = 200 := by
          have : ((decimalValue (if c = 43 then t else c :: t) : Nat) : Int) = 200 := hval.symm
          unfold decimalValue at this
          omega
        obtain ⟨zeros, hz, hall⟩ := digits_200 hdig hval2
        by_cases h43 : c = 43
        · subst h43
          simp only [if_true] at hz
          exact ⟨[43], zeros, by rw [hz]; rfl, Or.inr rfl, hall⟩
        · simp only [h43, if_false] at hz
          exact ⟨[], zeros, by rw [hz]; rfl, Or.inl rfl, hall⟩
  · rintro ⟨sign, zeros, rfl, hs, hall⟩
    have hdig : ∀ x ∈ zeros ++ str "200", IsDigit x := by
      intro x hx
      rcases List.mem_append.1 hx with h | h
      · rw [hall x h]; decide
      · have e : str "200" = [50, 48, 48] := by decide
        rw [e] at h
        simp only [List.mem_cons, List.mem_singleton, List.not_mem_nil, or_false] at h
        rcases h with rfl | rfl | rfl <;> decide
    have hval : decimalValue (zeros ++ str "200") = 200 := by
      unfold decimalValue
      rw [decimalFrom_append, decimalFrom_zeros hall]
      decide
    have hne : zeros ++ str "200" ≠ [] := by
      intro e
      have := congrArg List.length e
      simp [str] at this
    rcases hs with rfl | rfl
    · have := ParseInt_digits hne hdig (by omega)
      rw [hval] at this
      simpa using this
    · obtain ⟨hb, hv⟩ := @ParseInt_body 43 (zeros ++ str "200") (zeros ++ str "200") false
        (by decide) (by simp)
      have h2 : (ParseInt (43 :: (zeros ++ str "200")) 10 16).2 = none :=
        hb.2 ⟨hne, hdig, by simp only [Bool.false_eq_true, if_false]; omega⟩
      have h1 := hv h2
      simp only [Bool.false_eq_true, if_false, hval] at h1
      exact Prod.ext h1 h2

theorem Is200Text_no_space {code : Bytes} (h : Is200Text code) : (32 : Byte) ∉ code := by
  obtain ⟨sign, zeros, rfl, hs, hall⟩ := h
  simp only [List.mem_append, not_or]
  refine ⟨⟨?_, ?_⟩, by decide⟩
  · rcases hs with rfl | rfl <;> decide
  · intro hm
    have := hall 32 hm
    revert this
    decide

/-! ## Lemmas on `Errorf` and on the request -/

theorem Errorf_unexpected (line : Bytes) :
    Errorf (str "unexpected CONNECT response line from proxy: %s") [.s line]
      = .errorString (str "unexpected CONNECT response line from proxy: " ++ line) := by
  unfold Errorf
  have h : Sprintf (str "unexpected CONNECT response line from proxy: %s") [.s line]
      = str "unexpected CONNECT response line from proxy: " ++ (line ++ []) := rfl
  rw [h, List.append_nil]

theorem Errorf_invalid_line (line : Bytes) :
    Errorf (str "invalid CONNECT response line from proxy: %s") [.s line]
      = .errorString (str "invalid CONNECT response line from proxy: " ++ line) := by
  unfold Errorf
  have h : Sprintf (str "invalid CONNECT response line from proxy: %s") [.s line]
      = str "invalid CONNECT response line from proxy: " ++ (line ++ []) := rfl
  rw [h, List.append_nil]

theorem Errorf_invalid_code (line : Bytes) :
    Errorf (str "invalid CONNECT response code from proxy: %s") [.s line]
      = .errorString (str "invalid CONNECT response code from proxy: " ++ line) := by
  unfold Errorf
  have h : Sprintf (str "invalid CONNECT response code from proxy: %s") [.s line]
      = str "invalid CONNECT response code from proxy: " ++ (line ++ []) := rfl
  rw [h, List.append_nil]

theorem Errorf_rejected (k : Int) :
    Errorf (str "expected 200 CONNECT response code but got %d") [.d k]
      = .errorString (str "expected 200 CONNECT response code but got " ++ fmtInt k) := by
  unfold Errorf
  have h : Sprintf (str "expected 200 CONNECT response code but got %d") [.d k]
      = str "expected 200 CONNECT response code but got " ++ (fmtInt k ++ []) := rfl
  rw [h, List.append_nil]

theorem connectRequest_eq (f a : Bytes) :
    connectRequest f a =
      if a = [] then str "CONNECT " ++ f ++ str " HTTP/1.1\nHost: " ++ f ++ str "\n\n"
      else str "CONNECT " ++ f ++ str " HTTP/1.1\nHost: " ++ f ++ str "\nProxy-Authorization: "
        ++ a ++ str "\n\n" := by
  unfold connectRequest
  by_cases h : a = []
  · have e : Sprintf (str "CONNECT %s HTTP/1.1\nHost: %s\n\n") [.s f, .s f]
        = str "CONNECT " ++ (f ++ (str " HTTP/1.1\nHost: " ++ (f ++ str "\n\n"))) := rfl
    simp only [h, ne_eq, not_true_eq_false, if_false, if_true, e, List.append_assoc]
  · have e : Sprintf (str "CONNECT %s HTTP/1.1\nHost: %s\nProxy-Authorization: %s\n\n")
          [.s f, .s f, .s a]
        = str "CONNECT " ++ (f ++ (str " HTTP/1.1\nHost: " ++ (f ++ (str "\nProxy-Authorization: "
          ++ (a ++ str "\n\n"))))) := rfl
    simp only [h, ne_eq, not_false_eq_true, if_true, if_false, e, List.append_assoc]

theorem splitLines_append {a : Bytes} (t : Bytes) (h : (10 : Byte) ∉ a) :
    splitLines (a ++ 10 :: t) = a :: splitLines t := by
  induction a with
  | nil => simp [splitLines]
  | cons b u ih =>
    simp only [List.mem_cons, not_or] at h
    have hb : ¬ (b = 10) := fun e => h.1 e.symm
    show splitLines (b :: (u ++ 10 :: t)) = _
    rw [splitLines, if_neg hb, ih h.2]

theorem splitLines_nil : splitLines [] = [[]] := rfl

theorem encodeStdChar_ne_newline (v : Nat) : encodeStdChar v ≠ 10 := by
  have h : ∀ k : Fin 64, encodeStd.getD k.val 0 ≠ 10 := by decide
  exact h ⟨v % 64, Nat.mod_lt _ (by decide)⟩

theorem EncodeToString_no_newline (s : Bytes) : (10 : Byte) ∉ EncodeToString s := by
  induction s using EncodeToString.induct with
  | case1 a b c t ih =>
    simp only [EncodeToString, List.mem_cons, not_or]
    exact ⟨(encodeStdChar_ne_newline _).symm, (encodeStdChar_ne_newline _).symm,
      (encodeStdChar_ne_newline _).symm, (encodeStdChar_ne_newline _).symm, ih⟩
  | case2 a b =>
    simp only [EncodeToString, List.mem_cons, List.mem_singleton, not_or, List.not_mem_nil,
      not_false_eq_true, and_true]
    exact ⟨(encodeStdChar_ne_newline _).symm, (encodeStdChar_ne_newline _).symm,
      (encodeStdChar_ne_newline _).symm, by decide⟩
  | case3 a =>
    simp only [EncodeToString, List.mem_cons, List.mem_singleton, not_or, List.not_mem_nil,
      not_false_eq_true, and_true]
    exact ⟨(encodeStdChar_ne_newline _).symm, (encodeStdChar_ne_newline _).symm, by decide,
      by decide⟩
  | case4 => simp [EncodeToString]

theorem proxyAuthOf_ne_nil {url : URL} {u : Userinfo} (h : url.User = some u) :
    proxyAuthOf url ≠ [] := by
  simp only [proxyAuthOf, h]
  intro e
  have := congrArg List.length e
  simp [str] at this

theorem authorizationLines_request (url : URL) (f : Bytes) (hf : (10 : Byte) ∉ f) :
    authorizationLines (connectRequest f (proxyAuthOf url)) =
      match url.User with
      | some u => [str "Proxy-Authorization: Basic " ++ EncodeToString u.String]
      | none => [] := by
  have l1 : (10 : Byte) ∉ str "CONNECT " ++ f ++ str " HTTP/1.1" := by
    simp only [List.mem_append, not_or]
    exact ⟨⟨by decide, hf⟩, by decide⟩
  have l2 : (10 : Byte) ∉ str "Host: " ++ f := by
    simp only [List.mem_append, not_or]
    exact ⟨by decide, hf⟩
  have p1 : HasPrefix (str "CONNECT " ++ f ++ str " HTTP/1.1") (str "Proxy-Authorization:")
      = false := HasPrefix_cons_ne _ _ (by decide)
  have p2 : HasPrefix (str "Host: " ++ f) (str "Proxy-Authorization:") = false :=
    HasPrefix_cons_ne _ _ (by decide)
  have p3 : HasPrefix ([] : Bytes) (str "Proxy-Authorization:") = false := by decide
  rw [connectRequest_eq]
  cases hu : url.User with
  | none =>
    have ha : proxyAuthOf url = [] := by simp [proxyAuthOf, hu]
    have e : str "CONNECT " ++ f ++ str " HTTP/1.1\nHost: " ++ f ++ str "\n\n"
        = (str "CONNECT " ++ f ++ str " HTTP/1.1") ++ 10 :: ((str "Host: " ++ f)
          ++ 10 :: ([] ++ 10 :: [])) := by
      have : str " HTTP/1.1\nHost: " = str " HTTP/1.1" ++ 10 :: str "Host: " := by decide
      rw [this]
      have : str "\n\n" = [10, 10] := by decide
      rw [this]
      simp only [List.append_assoc, List.cons_append, List.nil_append]
    rw [ha, if_pos rfl, e, authorizationLines, splitLines_append _ l1, splitLines_append _ l2,
      splitLines_append ([] : Bytes) (List.not_mem_nil _), splitLines_nil]
    simp only [List.filter_cons, p1, p2, p3, Bool.false_eq_true, if_false, List.filter_nil]
  | some u =>
    have ha : proxyAuthOf url ≠ [] := proxyAuthOf_ne_nil hu
    have hau : proxyAuthOf url = str "Basic " ++ EncodeToString u.String := by
      simp [proxyAuthOf, hu]
    have l3 : (10 : Byte) ∉ str "Proxy-Authorization: " ++ proxyAuthOf url := by
      rw [hau]
      simp only [List.mem_append, not_or]
      exact ⟨by decide, by decide, EncodeToString_no_newline _⟩
    have p4 : HasPrefix (str "Proxy-Authorization: " ++ proxyAuthOf url)
        (str "Proxy-Authorization:") = true := by
      have : str "Proxy-Authorization: " = str "Proxy-Authorization:" ++ [32] := by decide
      rw [this, List.append_assoc]
      exact HasPrefix_append _ _
    have e : str "CONNECT " ++ f ++ str " HTTP/1.1\nHost: " ++ f ++ str "\nProxy-Authorization: "
          ++ proxyAuthOf url ++ str "\n\n"
        = (str "CONNECT " ++ f ++ str " HTTP/1.1") ++ 10 :: ((str "Host: " ++ f)
          ++ 10 :: ((str "Proxy-Authorization: " ++ proxyAuthOf url) ++ 10 :: ([] ++ 10 :: []))) := by
      have : str " HTTP/1.1\nHost: " = str " HTTP/1.1" ++ 10 :: str "Host: " := by decide
      rw [this]
      have : str "\nProxy-Authorization: " = 10 :: str "Proxy-Authorization: " := by decide
      rw [this]
      have : str "\n\n" = [10, 10] := by decide
      rw [this]
      simp only [List.append_assoc, List.cons_append, List.nil_append]
    have e2 : str "Proxy-Authorization: " ++ proxyAuthOf url
        = str "Proxy-Authorization: Basic " ++ EncodeToString u.String := by
      rw [hau, ← List.append_assoc]
      rfl
    rw [if_neg ha, e, authorizationLines, splitLines_append _ l1, splitLines_append _ l2,
      splitLines_append _ l3, splitLines_append ([] : Bytes) (List.not_mem_nil _), splitLines_nil]
    rw [e2] at p4
    simp only [List.filter_cons, p1, p2, p3, p4, Bool.false_eq_true, if_false, if_true,
      List.filter_nil, e2]

theorem splitLines_request (f a : Bytes) (hf : (10 : Byte) ∉ f) (ha : (10 : Byte) ∉ a) :
    splitLines (connectRequest f a) =
      if a = [] then [str "CONNECT " ++ f ++ str " HTTP/1.1", str "Host: " ++ f, [], []]
      else [str "CONNECT " ++ f ++ str " HTTP/1.1", str "Host: " ++ f,
        str "Proxy-Authorization: " ++ a, [], []] := by
  have l1 : (10 : Byte) ∉ str "CONNECT " ++ f ++ str " HTTP/1.1" := by
    simp only [List.mem_append, not_or]
    exact ⟨⟨by decide, hf⟩, by decide⟩
  have l2 : (10 : Byte) ∉ str "Host: " ++ f := by
    simp only [List.mem_append, not_or]
    exact ⟨by decide, hf⟩
  have l3 : (10 : Byte) ∉ str "Proxy-Authorization: " ++ a := by
    simp only [List.mem_append, not_or]
    exact ⟨by decide, ha⟩
  have s1 : str " HTTP/1.1\nHost: " = str " HTTP/1.1" ++ 10 :: str "Host: " := by decide
  have s2 : str "\nProxy-Authorization: " = 10 :: str "Proxy-Authorization: " := by decide
  have s3 : str "\n\n" = [10, 10] := by decide
  rw [connectRequest_eq]
  by_cases h : a = []
  · have e : str "CONNECT " ++ f ++ str " HTTP/1.1\nHost: " ++ f ++ str "\n\n"
        = (str "CONNECT " ++ f ++ str " HTTP/1.1") ++ 10 :: ((str "Host: " ++ f)
          ++ 10 :: ([] ++ 10 :: [])) := by
      rw [s1, s3]
      simp only [List.append_assoc, List.cons_append, List.nil_append]
    rw [if_pos h, if_pos h, e, splitLines_append _ l1, splitLines_append _ l2,
      splitLines_append ([] : Bytes) (List.not_mem_nil _), splitLines_nil]
  · have e : str "CONNECT " ++ f ++ str " HTTP/1.1\nHost: " ++ f ++ str "\nProxy-Authorization: "
          ++ a ++ str "\n\n"
        = (str "CONNECT " ++ f ++ str " HTTP/1.1") ++ 10 :: ((str "Host: " ++ f)
          ++ 10 :: ((str "Proxy-Authorization: " ++ a) ++ 10 :: ([] ++ 10 :: []))) := by
      rw [s1, s2, s3]
      simp only [List.append_assoc, List.cons_append, List.nil_append]
    rw [if_neg h, if_neg h, e, splitLines_append _ l1, splitLines_append _ l2,
      splitLines_append _ l3, splitLines_append ([] : Bytes) (List.not_mem_nil _), splitLines_nil]

theorem request_no_cr (f a : Bytes) (hf : (13 : Byte) ∉ f) (ha : (13 : Byte) ∉ a) :
    (13 : Byte) ∉ connectRequest f a := by
  rw [connectRequest_eq]
  split
  · simp only [List.mem_append, not_or]
    exact ⟨⟨⟨⟨by decide, hf⟩, by decide⟩, hf⟩, by decide⟩
  · simp only [List.mem_append, not_or]
    exact ⟨⟨⟨⟨⟨⟨by decide, hf⟩, by decide⟩, hf⟩, by decide⟩, ha⟩, by decide⟩

theorem Errorf_scheme (scheme : Bytes) :
    Errorf (str "URL scheme \x27%v\x27 not supported for proxy") [.s scheme]
      = .errorString (str "URL scheme \x27" ++ scheme ++ str "\x27 not supported for proxy") := by
  unfold Errorf
  have h : Sprintf (str "URL scheme \x27%v\x27 not supported for proxy") [.s scheme]
      = str "URL scheme \x27" ++ (scheme ++ str "\x27 not supported for proxy") := rfl
  rw [h, List.append_assoc]

/-! ## Lemmas on the connection and the buffered reader -/

theorem AfterReads.refl (c : Conn) : AfterReads c c [] :=
  ⟨rfl, rfl, rfl, rfl, rfl, rfl, rfl, ⟨[], by simp⟩, by simp⟩

theorem AfterReads.trans {c c2 c3 : Conn} {t t2 : Bytes} (h : AfterReads c c2 t)
    (h2 : AfterReads c2 c3 t2) : AfterReads c c3 (t ++ t2) := by
  obtain ⟨ns, hns⟩ := h.log
  obtain ⟨ns2, hns2⟩ := h2.log
  exact ⟨h2.id.trans h.id, h2.readErr.trans h.readErr,
    h2.deadlineResults.trans h.deadlineResults, h2.writeResults.trans h.writeResults,
    h2.deadline.trans h.deadline, h2.sent.trans h.sent, h2.closed.trans h.closed,
    ⟨ns ++ ns2, by rw [hns2, hns]; simp⟩, by rw [h.pending, h2.pending]; simp⟩

theorem Conn.Read_spec (c : Conn) (n : Nat) :
    AfterReads c (c.Read n).2 (c.Read n).1.1 ∧ (c.Read n).1.1.length ≤ n ∧
      ((c.Read n).1.2 ≠ none → (c.Read n).1.1 = []) ∧
      (∀ e, (c.Read n).1.2 = some e → e = c.readErr) := by
  unfold Conn.Read
  cases hin : c.incoming with
  | nil =>
    refine ⟨⟨rfl, rfl, rfl, rfl, rfl, rfl, rfl, ⟨[n], by simp⟩, ?_⟩, by simp, by simp, ?_⟩
    · simp [Conn.pending, hin]
    · intro e he
      simp only [Option.some.injEq] at he
      exact he.symm
  | cons chunk rest =>
    refine ⟨⟨rfl, rfl, rfl, rfl, rfl, rfl, rfl, ⟨[n], by simp⟩, ?_⟩, ?_, by simp, by simp⟩
    · simp only [Conn.pending, hin, List.flatten_cons]
      by_cases hle : chunk.length ≤ n
      · simp [hle, List.take_of_length_le hle]
      · simp only [hle, if_false, List.flatten_cons, ← List.append_assoc, List.take_append_drop]
    · simp only [List.length_take]; omega

theorem Conn.SetDeadline_frame (c : Conn) (t : Option Nat) :
    (c.SetDeadline t).2.id = c.id ∧ (c.SetDeadline t).2.closed = c.closed ∧
      (c.SetDeadline t).2.log = c.log ++ [.SetDeadline t] ∧
      (c.SetDeadline t).2.incoming = c.incoming ∧ (c.SetDeadline t).2.sent = c.sent := by
  unfold Conn.SetDeadline
  rcases c.deadlineResults with _ | ⟨_ | e, rest⟩ <;> simp

theorem Conn.Write_frame (c : Conn) (p : Bytes) :
    (c.Write p).2.id = c.id ∧ (c.Write p).2.closed = c.closed ∧
      (c.Write p).2.log = c.log ++ [.Write p] ∧ (c.Write p).2.incoming = c.incoming := by
  unfold Conn.Write
  rcases c.writeResults with _ | ⟨⟨n, e⟩, rest⟩ <;> simp

theorem writesOf_append (l l2 : List Op) : writesOf (l ++ l2) = writesOf l ++ writesOf l2 := by
  simp [writesOf, List.filterMap_append]

theorem writesOf_reads (ns : List Nat) : writesOf (ns.map Op.Read) = [] := by
  induction ns with
  | nil => rfl
  | cons n t ih => simp [writesOf]

theorem fillLoop_spec (i : Nat) (b : Reader) (c : Conn) (hb : b.err = none) :
    ∃ data, (fillLoop i b c).1.buf = b.buf ++ data ∧ AfterReads c (fillLoop i b c).2 data ∧
      data.length ≤ defaultBufSize - b.buf.length ∧
      ((fillLoop i b c).1.err ≠ none ∨ data ≠ []) ∧
      (∀ x, (fillLoop i b c).1.err = some x → x = .conn c.readErr ∨ x = .ErrNoProgress) := by
  induction i generalizing b c with
  | zero =>
    exact ⟨[], by simp [fillLoop], by simpa [fillLoop] using AfterReads.refl c, by simp,
      Or.inl (by simp [fillLoop]), by simp [fillLoop]⟩
  | succ i ih =>
    obtain ⟨hr, hlen, hnil, hcause⟩ := c.Read_spec (defaultBufSize - b.buf.length)
    unfold fillLoop
    rcases hread : c.Read (defaultBufSize - b.buf.length) with ⟨⟨data, err⟩, c1⟩
    rw [hread] at hr hlen hnil hcause
    simp only at hr hlen hnil hcause ⊢
    cases err with
    | some e =>
      refine ⟨data, rfl, hr, hlen, Or.inl (by simp), fun x hx => Or.inl ?_⟩
      simp only [Option.some.injEq] at hx
      rw [← hx, hcause e rfl]
    | none =>
      simp only []
      by_cases hpos : data.length > 0
      · simp only [hpos, if_true]
        exact ⟨data, rfl, hr, hlen, Or.inr (by intro h; simp [h] at hpos), by simp [hb]⟩
      · have hd : data = [] := by
          cases data with
          | nil => rfl
          | cons x y => simp at hpos
        subst hd
        simp only [hpos, if_false, List.append_nil]
        obtain ⟨data2, h1, h2, h3, h4, h5⟩ := ih { b with buf := b.buf } c1 hb
        rw [hr.readErr] at h5
        exact ⟨data2, h1, by simpa using hr.trans h2, h3, h4, h5⟩

theorem readSliceLoop_spec (delim : Byte) (fuel : Nat) : ∀ (s : Nat) (b : Reader) (c : Conn),
    (if b.err = none then defaultBufSize - b.buf.length + 2 else 1) ≤ fuel →
    b.err ≠ some .ErrBufferFull → delim ∉ b.buf.take s → s ≤ b.buf.length →
    ∃ frag e b1 c1, readSliceLoop delim fuel s b c = some ((frag, e), b1, c1) ∧
      ReadPost delim [] b c frag e b1 c1 ∧
      (e = some .ErrBufferFull → 1 ≤ frag.length ∧ b1.err = none) := by
  induction fuel with
  | zero =>
    intro s b c hf
    split at hf <;> omega
  | succ fuel ih =>
    intro s b c hf hbe hs hsl
    unfold readSliceLoop
    cases hidx : indexOf? (b.buf.drop s) delim with
    | some i =>
      obtain ⟨p, q, h1, h2, h3⟩ := indexOf?_some hidx
      have hbuf : b.buf = (b.buf.take s ++ p) ++ delim :: q := by
        rw [List.append_assoc, ← h1, List.take_append_drop]
      have hlen : (b.buf.take s ++ p).length = s + i := by
        simp [h3, Nat.min_eq_left hsl]
      have htake : b.buf.take (s + i + 1) = (b.buf.take s ++ p) ++ [delim] := by
        conv_lhs => rw [hbuf]
        rw [← hlen, take_succ_append]
      refine ⟨_, _, _, _, rfl, ⟨⟨[], AfterReads.refl c, by simp⟩, hbe, fun _ => ?_,
        fun h => (h rfl).elim, fun x h => (by cases h), fun x h => Or.inl h⟩, fun h => by cases h⟩
      refine ⟨b.buf.take s ++ p, htake, ?_⟩
      simp only [List.mem_append, not_or]
      exact ⟨hs, h2⟩
    | none =>
      have hnd : delim ∉ b.buf := by
        have := not_mem_of_indexOf?_none hidx
        intro hm
        rw [← List.take_append_drop s b.buf, List.mem_append] at hm
        exact hm.elim hs this
      cases herr : b.err with
      | some e =>
        refine ⟨_, _, _, _, rfl, ⟨⟨[], AfterReads.refl c, by simp⟩, by simp,
          fun h => (by cases h), fun _ => ⟨hnd, rfl⟩, fun x h => Or.inl (herr.trans h),
          fun x h => (by cases h)⟩, fun h => ?_⟩
        simp only [Option.some.injEq] at h
        rw [herr, h] at hbe
        exact (hbe rfl).elim
      | none =>
        simp only []
        by_cases hfull : b.buf.length ≥ defaultBufSize
        · simp only [hfull, if_true]
          refine ⟨_, _, _, _, rfl, ⟨⟨[], AfterReads.refl c, by simp⟩, by simp [herr],
            fun h => (by cases h), fun _ => ⟨hnd, rfl⟩,
            fun x h => Or.inr (Or.inr (Or.inr (Option.some.inj h).symm)),
            fun x h => (by cases h)⟩, fun _ => ⟨?_, rfl⟩⟩
          have : 0 < defaultBufSize := by decide
          omega
        · simp only [hfull, if_false]
          obtain ⟨data, f1, f2, f3, f4, f5⟩ := fillLoop_spec maxConsecutiveEmptyReads b c herr
          rcases hfill : fill b c with ⟨b1, c1⟩
          have hfill2 : fillLoop maxConsecutiveEmptyReads b c = (b1, c1) := hfill
          rw [hfill2] at f1 f2 f4 f5
          simp only at f1 f2 f4 f5 ⊢
          have hfuel : (if b1.err = none then defaultBufSize - b1.buf.length + 2 else 1) ≤ fuel := by
            rw [herr] at hf
            simp only [if_true] at hf
            split
            · rename_i hnone
              have hdne : data ≠ [] := f4.resolve_left (fun h => h hnone)
              have : 0 < data.length := List.length_pos.2 hdne
              rw [f1, List.length_append]
              omega
            · omega
          have hs1 : delim ∉ b1.buf.take b.buf.length := by
            rw [f1, List.take_left']
            · exact hnd
            · rfl
          have hsl1 : b.buf.length ≤ b1.buf.length := by rw [f1]; simp
          have f6 : b1.err ≠ some .ErrBufferFull := by
            intro h
            rcases f5 _ h with h | h <;> cases h
          obtain ⟨frag, e, b2, c2, g1, g2, g3⟩ := ih b.buf.length b1 c1 hfuel f6 hs1 hsl1
          refine ⟨frag, e, b2, c2, g1, ⟨?_, g2.err, g2.line, g2.fail, ?_, ?_⟩, g3⟩
          · obtain ⟨data2, k1, k2⟩ := g2.after
            refine ⟨data ++ data2, f2.trans k1, ?_⟩
            rw [← k2, f1]
            simp
          · intro x hx
            rcases g2.cause x hx with h | h
            · rcases f5 x h with h | h
              · exact Or.inr (Or.inl h)
              · exact Or.inr (Or.inr (Or.inl h))
            · rw [f2.readErr] at h
              exact Or.inr h
          · intro x hx
            rcases g2.pendingErr x hx with h | h
            · exact Or.inr (f5 x h)
            · rw [f2.readErr] at h
              exact Or.inr h

theorem ReadSlice_spec (delim : Byte) (b : Reader) (c : Conn) (hbe : b.err ≠ some .ErrBufferFull) :
    ∃ frag e b1 c1, ReadSlice b c delim = some ((frag, e), b1, c1) ∧
      ReadPost delim [] b c frag e b1 c1 ∧
      (e = some .ErrBufferFull → 1 ≤ frag.length ∧ b1.err = none) := by
  apply readSliceLoop_spec delim (defaultBufSize + 2) 0 b c _ hbe (by simp) (by omega)
  split <;> omega

theorem readBytesLoop_spec (delim : Byte) (fuel : Nat) : ∀ (full : Bytes) (b : Reader) (c : Conn),
    b.buf.length + c.pending.length + 1 ≤ fuel → b.err ≠ some .ErrBufferFull → delim ∉ full →
    ∃ line e b1 c1, readBytesLoop delim fuel full b c = some ((line, e), b1, c1) ∧
      ReadPost delim full b c line e b1 c1 ∧ e ≠ some .ErrBufferFull := by
  induction fuel with
  | zero => intro full b c hf; omega
  | succ fuel ih =>
    intro full b c hf hbe hfull
    obtain ⟨frag, e, b1, c1, h1, h2, h3⟩ := ReadSlice_spec delim b c hbe
    obtain ⟨data, a1, a2⟩ := h2.after
    simp only [List.nil_append] at a2
    unfold readBytesLoop
    rw [h1]
    simp only []
    cases e with
    | none =>
      obtain ⟨pre, p1, p2⟩ := h2.line rfl
      refine ⟨_, _, _, _, rfl, ⟨⟨data, a1, by rw [List.append_assoc, a2, List.append_assoc]⟩,
        h2.err, fun _ => ⟨full ++ pre, by rw [p1, List.append_assoc], ?_⟩,
        fun h => (h rfl).elim, fun x h => (by cases h), h2.pendingErr⟩, by simp⟩
      simp only [List.mem_append, not_or]
      exact ⟨hfull, p2⟩
    | some x =>
      obtain ⟨q1, q2⟩ := h2.fail (by simp)
      by_cases hx : x = .ErrBufferFull
      · subst hx
        obtain ⟨r1, r2⟩ := h3 rfl
        have hlen := congrArg List.length a2
        have hpen := congrArg List.length a1.pending
        simp only [List.length_append, q2, List.length_nil] at hlen hpen
        have hf2 : b1.buf.length + c1.pending.length + 1 ≤ fuel := by
          rw [q2, List.length_nil]; omega
        have hfull2 : delim ∉ full ++ frag := by
          simp only [List.mem_append, not_or]
          exact ⟨hfull, q1⟩
        obtain ⟨line, e, b2, c2, g1, g2, g3⟩ := ih (full ++ frag) b1 c1 hf2 h2.err hfull2
        refine ⟨line, e, b2, c2, g1, ⟨?_, g2.err, g2.line, g2.fail, ?_, ?_⟩, g3⟩
        · obtain ⟨data2, k1, k2⟩ := g2.after
          refine ⟨data ++ data2, a1.trans k1, ?_⟩
          rw [← k2, q2, List.append_nil, ← List.append_assoc, List.append_assoc full, a2, q2,
            List.append_nil]
        · intro y hy
          rcases g2.cause y hy with h | h
          · rw [r2] at h; cases h
          · rw [a1.readErr] at h
            exact Or.inr h
        · intro y hy
          rcases g2.pendingErr y hy with h | h
          · rw [r2] at h; cases h
          · rw [a1.readErr] at h
            exact Or.inr h
      · have hgo : (match (some x : Option GoError) with
            | none => some ((full ++ frag, none), b1, c1)
            | some .ErrBufferFull => readBytesLoop delim fuel (full ++ frag) b1 c1
            | some e => some ((full ++ frag, some e), b1, c1))
            = some ((full ++ frag, some x), b1, c1) := by
          cases x <;> first | rfl | exact (hx rfl).elim
        refine ⟨_, _, _, _, hgo, ⟨⟨data, a1, by rw [List.append_assoc, a2, q2]; simp⟩, h2.err,
          fun h => (by cases h), fun _ => ⟨?_, q2⟩, h2.cause, h2.pendingErr⟩, ?_⟩
        · simp only [List.mem_append, not_or]
          exact ⟨hfull, q1⟩
        · intro h
          exact hx (Option.some.inj h)

/-- `ReadString` on a fresh reader always returns: the first line of what the
transport delivers, or what it delivered and the error. -/
theorem ReadString_spec (delim : Byte) (c : Conn) :
    ∃ line e b1 c1, ReadString NewReader c delim = some ((line, e), b1, c1) ∧
      ReadPost delim [] NewReader c line e b1 c1 ∧ e ≠ some .ErrBufferFull :=
  readBytesLoop_spec delim _ [] NewReader c (Nat.le_refl _) (by simp [NewReader]) (by simp)

theorem Conn.SetDeadline_readErr (c : Conn) (t : Option Nat) :
    (c.SetDeadline t).2.readErr = c.readErr := by
  unfold Conn.SetDeadline
  rcases c.deadlineResults with _ | ⟨_ | e, rest⟩ <;> rfl

theorem Conn.Write_readErr (c : Conn) (p : Bytes) : (c.Write p).2.readErr = c.readErr := by
  unfold Conn.Write
  rcases c.writeResults with _ | ⟨⟨n, e⟩, rest⟩ <;> rfl

theorem Conn.Read_delivers (c : Conn) (n : Nat) (hn : 0 < n) (hc : c.Delivers) :
    (c.Read n).2.Delivers ∧ ((c.Read n).1.2 = none → (c.Read n).1.1 ≠ []) := by
  unfold Conn.Read Conn.Delivers
  unfold Conn.Delivers at hc
  cases hin : c.incoming with
  | nil => simp
  | cons chunk rest =>
    rw [hin] at hc
    have hch : chunk ≠ [] := hc chunk (List.mem_cons_self _ _)
    have hrest : ∀ ch ∈ rest, ch ≠ [] := fun ch h => hc ch (List.mem_cons_of_mem _ h)
    constructor
    · simp only []
      by_cases hle : chunk.length ≤ n
      · simpa [hle] using hrest
      · simp only [hle, if_false, List.mem_cons, forall_eq_or_imp]
        refine ⟨?_, hrest⟩
        intro h
        have := congrArg List.length h
        simp only [List.length_drop, List.length_nil] at this
        omega
    · intro _ h
      simp only at h
      have := congrArg List.length h
      simp only [List.length_take, List.length_nil] at this
      have : 0 < chunk.length := List.length_pos.2 hch
      omega

theorem fillLoop_delivers (i : Nat) (b : Reader) (c : Conn) (hi : 0 < i)
    (hlen : b.buf.length < defaultBufSize) (hb : b.err ≠ some .ErrNoProgress)
    (hc : c.Delivers) :
    (fillLoop i b c).1.err ≠ some .ErrNoProgress ∧ (fillLoop i b c).2.Delivers := by
  cases i with
  | zero => omega
  | succ i =>
    obtain ⟨h1, h2⟩ := c.Read_delivers (defaultBufSize - b.buf.length) (by omega) hc
    unfold fillLoop
    rcases hread : c.Read (defaultBufSize - b.buf.length) with ⟨⟨data, err⟩, c1⟩
    rw [hread] at h1 h2
    simp only at h1 h2 ⊢
    cases err with
    | some e => exact ⟨by simp, h1⟩
    | none =>
      have hd : data ≠ [] := h2 rfl
      have hpos : data.length > 0 := List.length_pos.2 hd
      simp only [hpos, if_true]
      exact ⟨hb, h1⟩

theorem readSliceLoop_delivers (delim : Byte) (fuel : Nat) : ∀ (s : Nat) (b : Reader) (c : Conn),
    b.err ≠ some .ErrNoProgress → c.Delivers →
    ∀ frag e b1 c1, readSliceLoop delim fuel s b c = some ((frag, e), b1, c1) →
      e ≠ some .ErrNoProgress ∧ b1.err ≠ some .ErrNoProgress ∧ c1.Delivers := by
  induction fuel with
  | zero =>
    intro s b c _ _ frag e b1 c1 h
    cases h
  | succ fuel ih =>
    intro s b c hb hc frag e b1 c1 h
    unfold readSliceLoop at h
    cases hidx : indexOf? (b.buf.drop s) delim with
    | some i =>
      rw [hidx] at h
      simp only [Option.some.injEq, Prod.mk.injEq] at h
      obtain ⟨⟨-, rfl⟩, rfl, rfl⟩ := h
      exact ⟨by simp, hb, hc⟩
    | none =>
      rw [hidx] at h
      cases herr : b.err with
      | some x =>
        rw [herr] at h
        simp only [Option.some.injEq, Prod.mk.injEq] at h
        obtain ⟨⟨-, rfl⟩, rfl, rfl⟩ := h
        rw [herr] at hb
        exact ⟨hb, by simp, hc⟩
      | none =>
        rw [herr] at h
        simp only [] at h
        by_cases hfull : b.buf.length ≥ defaultBufSize
        · rw [if_pos hfull] at h
          simp only [Option.some.injEq, Prod.mk.injEq] at h
          obtain ⟨⟨-, rfl⟩, rfl, rfl⟩ := h
          exact ⟨by simp, by simp [herr], hc⟩
        · rw [if_neg hfull] at h
          obtain ⟨f1, f2⟩ := fillLoop_delivers maxConsecutiveEmptyReads b c (by decide)
            (by omega) hb hc
          rcases hfill : fill b c with ⟨b2, c2⟩
          have hfill2 : fillLoop maxConsecutiveEmptyReads b c = (b2, c2) := hfill
          rw [hfill2] at f1 f2
          rw [hfill] at h
          exact ih _ b2 c2 f1 f2 frag e b1 c1 h

theorem readBytesLoop_delivers (delim : Byte) (fuel : Nat) : ∀ (full : Bytes) (b : Reader)
    (c : Conn), b.err ≠ some .ErrNoProgress → c.Delivers →
    ∀ line e b1 c1, readBytesLoop delim fuel full b c = some ((line, e), b1, c1) →
      e ≠ some .ErrNoProgress := by
  induction fuel with
  | zero =>
    intro full b c _ _ line e b1 c1 h
    cases h
  | succ fuel ih =>
    intro full b c hb hc line e b1 c1 h
    unfold readBytesLoop at h
    cases hrs : ReadSlice b c delim with
    | none => rw [hrs] at h; cases h
    | some res =>
      obtain ⟨⟨frag, e2⟩, b2, c2⟩ := res
      obtain ⟨g1, g2, g3⟩ := readSliceLoop_delivers delim _ 0 b c hb hc frag e2 b2 c2 hrs
      rw [hrs] at h
      simp only [] at h
      cases e2 with
      | none =>
        simp only [Option.some.injEq, Prod.mk.injEq] at h
        obtain ⟨⟨-, rfl⟩, -, -⟩ := h
        simp
      | some x =>
        cases x with
        | ErrBufferFull => exact ih _ b2 c2 g2 g3 line e b1 c1 h
        | conn y =>
          simp only [Option.some.injEq, Prod.mk.injEq] at h
          obtain ⟨⟨-, rfl⟩, -, -⟩ := h
          simp
        | ErrNoProgress => exact (g1 rfl).elim
        | errorString y =>
          simp only [Option.some.injEq, Prod.mk.injEq] at h
          obtain ⟨⟨-, rfl⟩, -, -⟩ := h
          simp
        | withMessage y z =>
          simp only [Option.some.injEq, Prod.mk.injEq] at h
          obtain ⟨⟨-, rfl⟩, -, -⟩ := h
          simp

/-- A line that `ReadString` returns without error ends in its only newline. -/
theorem ReadString_line {c2 c3 : Conn} {line : Bytes} {r : Reader}
    (hr : ReadString NewReader c2 10 = some ((line, none), r, c3)) :
    ∃ pre, line = pre ++ [10] ∧ (10 : Byte) ∉ pre := by
  obtain ⟨line2, e, b1, c1, h1, h2, -⟩ := ReadString_spec 10 c2
  rw [hr] at h1
  simp only [Option.some.injEq, Prod.mk.injEq] at h1
  obtain ⟨⟨rfl, rfl⟩, -, -⟩ := h1
  exact h2.line rfl

/-! ## Lemmas on the program -/

theorem establish_of_line {now : Nat} {c c1 c2 c3 : Conn} {f a : Bytes} {n : Nat} {r : Reader}
    (code tail : Bytes)
    (hd : c.SetDeadline (some (now + ProxyDeadlineDuration)) = (none, c1))
    (hw : c1.Write (connectRequest f a) = ((n, none), c2))
    (hsp : (32 : Byte) ∉ code)
    (hr : ReadString NewReader c2 10
      = some ((str "HTTP/1.1 " ++ (code ++ 32 :: tail), none), r, c3)) :
    establishProxyConnect now c f a =
      if (ParseInt code 10 16).2 ≠ none then
        some ⟨.values none (some (.errorString
          (str "invalid CONNECT response code from proxy: "
            ++ (str "HTTP/1.1 " ++ (code ++ 32 :: tail))))), c3⟩
      else if (ParseInt code 10 16).1 ≠ 200 then
        some ⟨.values none (some (.errorString
          (str "expected 200 CONNECT response code but got " ++ fmtInt (ParseInt code 10 16).1))),
          c3⟩
      else some ⟨.values (some c.id) none, (c3.SetDeadline none).2⟩ := by
  have hs := sliceFrom?_append (str "HTTP/1.1 ") (code ++ 32 :: tail)
  have hm := slice?_mid (str "HTTP/1.1 ") code (32 :: tail)
  rw [str_http_length] at hs hm
  have hi : IndexByte (code ++ 32 :: tail) 32 = (code.length : Int) := by
    simp [IndexByte, indexOf?_append tail hsp]
  have hne : ¬ ((code.length : Int) = -1) := by omega
  simp only [establishProxyConnect, hd, hw, hr, HasPrefix_append, Bool.not_true, Bool.false_eq_true,
    if_false, hi, hne]
  simp only [Nat.cast_ofNat] at hs hm
  rw [hs]
  simp only [hi, hne, if_false, hm, Errorf_invalid_code, Errorf_rejected]

/-- The validation of a line that was read ends in an error with no connection,
or in the connection that was given; it does not panic. -/
theorem establish_validated {now : Nat} {c c1 c2 c3 : Conn} {f a line : Bytes} {n : Nat}
    {r : Reader}
    (hd : c.SetDeadline (some (now + ProxyDeadlineDuration)) = (none, c1))
    (hw : c1.Write (connectRequest f a) = ((n, none), c2))
    (hr : ReadString NewReader c2 10 = some ((line, none), r, c3)) :
    (∃ text, establishProxyConnect now c f a
        = some ⟨.values none (some (.errorString text)), c3⟩) ∨
      establishProxyConnect now c f a
        = some ⟨.values (some c.id) none, (c3.SetDeadline none).2⟩ := by
  simp only [establishProxyConnect, hd, hw, hr]
  by_cases hp : HasPrefix line (str "HTTP/1.1 ") = true
  · have hs := sliceFrom?_of_HasPrefix hp
    rw [str_http_length] at hs
    simp only [Nat.cast_ofNat] at hs
    simp only [hp, Bool.not_true, Bool.false_eq_true, if_false, hs]
    cases hi : indexOf? (line.drop 9) 32 with
    | none =>
      have : IndexByte (line.drop 9) 32 = -1 := by simp [IndexByte, hi]
      simp only [this, if_true]
      exact Or.inl ⟨_, rfl⟩
    | some i =>
      have hpos : IndexByte (line.drop 9) 32 = (i : Int) := by simp [IndexByte, hi]
      have hne : ¬ ((i : Int) = -1) := by omega
      have hlt := indexOf?_lt hi
      simp only [List.length_drop] at hlt
      have hsl : slice? line 9 (9 + (i : Int)) = some ((line.take (9 + i)).drop 9) := by
        have e1 : (9 + (i : Int)).toNat = 9 + i := by omega
        have e2 : (9 : Int).toNat = 9 := rfl
        simp only [slice?, e1, e2]
        rw [if_pos]
        omega
      simp only [hpos, hne, if_false, hsl]
      split_ifs
      · exact Or.inl ⟨_, rfl⟩
      · exact Or.inl ⟨_, rfl⟩
      · exact Or.inr rfl
  · simp only [hp, Bool.not_false, if_true]
    exact Or.inl ⟨_, rfl⟩

/-- How a call of `establishProxyConnect` can go: the four ways to fail and the
success, with the connection each leaves. -/
theorem establish_cases (now : Nat) (c : Conn) (f a : Bytes) :
    (∃ e c1, c.SetDeadline (some (now + ProxyDeadlineDuration)) = (some e, c1) ∧
      establishProxyConnect now c f a = some ⟨.values none (some (.conn e)), c1⟩) ∨
    (∃ c1, c.SetDeadline (some (now + ProxyDeadlineDuration)) = (none, c1) ∧
      ((∃ n e c2, c1.Write (connectRequest f a) = ((n, some e), c2) ∧
        establishProxyConnect now c f a = some ⟨.values none (some (.conn e)), c2⟩) ∨
      (∃ n c2, c1.Write (connectRequest f a) = ((n, none), c2) ∧
        ∃ line e r c3, ReadString NewReader c2 10 = some ((line, e), r, c3) ∧
          ReadPost 10 [] NewReader c2 line e r c3 ∧
          ((∃ x, e = some x ∧ establishProxyConnect now c f a
              = some ⟨.values none
                  (some (WithMessage x (str "failed to read CONNECT response line"))), c3⟩) ∨
            (e = none ∧
              ((∃ text, establishProxyConnect now c f a
                  = some ⟨.values none (some (.errorString text)), c3⟩) ∨
                establishProxyConnect now c f a
                  = some ⟨.values (some c.id) none, (c3.SetDeadline none).2⟩)))))) := by
  rcases hd : c.SetDeadline (some (now + ProxyDeadlineDuration)) with ⟨_ | e, c1⟩
  · refine Or.inr ⟨c1, rfl, ?_⟩
    rcases hw : c1.Write (connectRequest f a) with ⟨⟨n, _ | e⟩, c2⟩
    · refine Or.inr ⟨n, c2, rfl, ?_⟩
      obtain ⟨line, e, r, c3, h1, h2, -⟩ := ReadString_spec 10 c2
      refine ⟨line, e, r, c3, h1, h2, ?_⟩
      cases e with
      | none => exact Or.inr ⟨rfl, establish_validated hd hw h1⟩
      | some x =>
        refine Or.inl ⟨x, rfl, ?_⟩
        simp only [establishProxyConnect, hd, hw, h1]
    · refine Or.inl ⟨n, e, c2, rfl, ?_⟩
      simp only [establishProxyConnect, hd, hw]
  · refine Or.inl ⟨e, c1, rfl, ?_⟩
    simp only [establishProxyConnect, hd]

/-- Every call returns, and leaves the connection it was given with the same
identity, not closed if it was not, and a log grown by operations among which
there is no `Close` and whose writes are the one request, if the deadline was
armed. -/
theorem establish_log (now : Nat) (c : Conn) (f a : Bytes) :
    ∃ o ops, establishProxyConnect now c f a = some o ∧ o.final.id = c.id ∧
      o.final.closed = c.closed ∧ o.final.log = c.log ++ ops ∧ Op.Close ∉ ops ∧
      writesOf ops =
        (if (c.SetDeadline (some (now + ProxyDeadlineDuration))).1 = none then
          [connectRequest f a] else []) := by
  rcases establish_cases now c f a with ⟨e, c1, hd, h⟩ | ⟨c1, hd, h⟩
  · obtain ⟨i1, i2, i3, -, -⟩ := c.SetDeadline_frame (some (now + ProxyDeadlineDuration))
    rw [hd] at i1 i2 i3
    refine ⟨_, _, h, i1, i2, i3, by simp, ?_⟩
    simp [hd, writesOf]
  · obtain ⟨i1, i2, i3, -, -⟩ := c.SetDeadline_frame (some (now + ProxyDeadlineDuration))
    rw [hd] at i1 i2 i3
    simp only at i1 i2 i3
    rcases h with ⟨n, e, c2, hw, h⟩ | ⟨n, c2, hw, line, e, r, c3, hr, hpost, h⟩
    · obtain ⟨j1, j2, j3, -⟩ := c1.Write_frame (connectRequest f a)
      rw [hw] at j1 j2 j3
      simp only at j1 j2 j3
      refine ⟨_, [.SetDeadline (some (now + ProxyDeadlineDuration)), .Write (connectRequest f a)],
        h, j1.trans i1, j2.trans i2, by rw [j3, i3]; simp, by simp, ?_⟩
      simp [hd, writesOf]
    · obtain ⟨j1, j2, j3, -⟩ := c1.Write_frame (connectRequest f a)
      rw [hw] at j1 j2 j3
      simp only at j1 j2 j3
      obtain ⟨data, haf, -⟩ := hpost.after
      obtain ⟨ns, hns⟩ := haf.log
      have hlog3 : c3.log = c.log ++ ([.SetDeadline (some (now + ProxyDeadlineDuration)),
          .Write (connectRequest f a)] ++ ns.map Op.Read) := by
        rw [hns, j3, i3]; simp
      have hw3 : writesOf ([Op.SetDeadline (some (now + ProxyDeadlineDuration)),
          Op.Write (connectRequest f a)] ++ ns.map Op.Read) = [connectRequest f a] := by
        rw [writesOf_append, writesOf_reads]; rfl
      have hfail : ∀ ret, establishProxyConnect now c f a = some ⟨ret, c3⟩ →
          ∃ o ops, establishProxyConnect now c f a = some o ∧ o.final.id = c.id ∧
            o.final.closed = c.closed ∧ o.final.log = c.log ++ ops ∧ Op.Close ∉ ops ∧
            writesOf ops =
              (if (c.SetDeadline (some (now + ProxyDeadlineDuration))).1 = none then
                [connectRequest f a] else []) := by
        intro ret hret
        refine ⟨_, _, hret, haf.id.trans (j1.trans i1), haf.closed.trans (j2.trans i2), hlog3,
          by simp, ?_⟩
        rw [hw3]; simp [hd]
      rcases h with ⟨x, -, h⟩ | ⟨-, ⟨text, h⟩ | h⟩
      · exact hfail _ h
      · exact hfail _ h
      · obtain ⟨k1, k2, k3, -, -⟩ := c3.SetDeadline_frame none
        refine ⟨_, [.SetDeadline (some (now + ProxyDeadlineDuration)),
          .Write (connectRequest f a)] ++ ns.map Op.Read ++ [.SetDeadline none], h,
          k1.trans (haf.id.trans (j1.trans i1)), k2.trans (haf.closed.trans (j2.trans i2)),
          by rw [k3, hlog3]; simp, by simp, ?_⟩
        rw [writesOf_append, hw3]; simp [hd, writesOf]

/-- A call ends in exactly one of two ways: the connection it was given with a
nil error, or a nil connection with an error; it does not panic. -/
theorem establish_ret {now : Nat} {c : Conn} {f a : Bytes} {o : Outcome}
    (h : establishProxyConnect now c f a = some o) :
    o.ret = .values (some c.id) none ∨ ∃ e, o.ret = .values none (some e) := by
  rcases establish_cases now c f a with ⟨e, c1, -, h1⟩ | ⟨c1, -, h1⟩
  · rw [h1] at h; cases h; exact Or.inr ⟨_, rfl⟩
  · rcases h1 with ⟨n, e, c2, -, h1⟩ | ⟨n, c2, -, line, e, r, c3, -, -, h1⟩
    · rw [h1] at h; cases h; exact Or.inr ⟨_, rfl⟩
    · rcases h1 with ⟨x, -, h1⟩ | ⟨-, ⟨text, h1⟩ | h1⟩
      · rw [h1] at h; cases h; exact Or.inr ⟨_, rfl⟩
      · rw [h1] at h; cases h; exact Or.inr ⟨_, rfl⟩
      · rw [h1] at h; cases h; exact Or.inl rfl

/-- Every call of `establishProxyConnect` returns: the fuel of the model of
`ReadString` is always enough. -/
theorem establishProxyConnect_returns (now : Nat) (c : Conn) (f a : Bytes) :
    ∃ o, establishProxyConnect now c f a = some o := by
  obtain ⟨o, -, h, -⟩ := establish_log now c f a
  exact ⟨o, h⟩

/-- Where the bytes of the proxy go when the call succeeds: what the transport
had to deliver is the line that was validated, then the bytes `lost`, which the
dropped reader had taken from the connection beyond the line, then what is
still to be read from the returned connection. -/
theorem establish_success_stream {now : Nat} {c final : Conn} {f a : Bytes} {k : Nat}
    (h : establishProxyConnect now c f a = some ⟨.values (some k) none, final⟩) :
    ∃ c2 line r c3, ReadString NewReader c2 10 = some ((line, none), r, c3) ∧
      c.pending = line ++ r.buf ++ final.pending ∧
      ∃ body, line = body ++ [10] ∧ (10 : Byte) ∉ body := by
  rcases establish_cases now c f a with ⟨e, c1, -, h1⟩ | ⟨c1, hd, h1⟩
  · rw [h1] at h; cases h
  · obtain ⟨-, -, -, i4, -⟩ := c.SetDeadline_frame (some (now + ProxyDeadlineDuration))
    rw [hd] at i4
    rcases h1 with ⟨n, e, c2, -, h1⟩ | ⟨n, c2, hw, line, e, r, c3, hr, hpost, h1⟩
    · rw [h1] at h; cases h
    · obtain ⟨-, -, -, j4⟩ := c1.Write_frame (connectRequest f a)
      rw [hw] at j4
      rcases h1 with ⟨x, -, h1⟩ | ⟨he, ⟨text, h1⟩ | h1⟩
      · rw [h1] at h; cases h
      · rw [h1] at h; cases h
      · subst he
        rw [h1] at h
        simp only [Option.some.injEq, Outcome.mk.injEq] at h
        obtain ⟨data, haf, hdata⟩ := hpost.after
        obtain ⟨-, -, -, k4, -⟩ := c3.SetDeadline_frame none
        refine ⟨c2, line, r, c3, hr, ?_, hpost.line rfl⟩
        have hp : c.pending = c2.pending := by
          simp only [Conn.pending]
          rw [j4, i4]
        have hp3 : final.pending = c3.pending := by
          rw [← h.2]
          simp only [Conn.pending]
          rw [k4]
        rw [hp, haf.pending, hp3]
        simp only [NewReader, List.nil_append] at hdata
        rw [hdata]

theorem DialViaProxy_opened {net : Net} {url : URL} {conn0 : Conn} (f : Bytes)
    (hopen : Opens net url conn0) :
    ∃ op, DialViaProxy net url f
      = (establishProxyConnect net.now conn0 f (proxyAuthOf url)).map fun o =>
          ⟨o.ret, [op], some o.final⟩ := by
  rcases hopen with ⟨hs, hdial⟩ | ⟨hs, hdial⟩
  · exact ⟨⟨false, JoinHostPort url.Hostname url.Port⟩, by
      simp only [DialViaProxy, hs, if_true, hdial, dialed]⟩
  · have hne : ¬ (str "https" = str "http") := by decide
    exact ⟨⟨true, JoinHostPort url.Hostname url.Port⟩, by
      simp only [DialViaProxy, hs, hne, if_false, if_true, hdial, dialed]⟩

/-- Every call of `DialViaProxy` returns. -/
theorem DialViaProxy_returns (net : Net) (url : URL) (f : Bytes) :
    ∃ d, DialViaProxy net url f = some d := by
  unfold DialViaProxy
  simp only []
  split_ifs
  · cases net.Dial (JoinHostPort url.Hostname url.Port) with
    | error e => exact ⟨_, rfl⟩
    | ok conn =>
      obtain ⟨o, ho⟩ := establishProxyConnect_returns net.now conn f (proxyAuthOf url)
      simp only [dialed, ho, Option.map_some']
      exact ⟨_, rfl⟩
  · cases net.DialTLS (JoinHostPort url.Hostname url.Port) with
    | error e => exact ⟨_, rfl⟩
    | ok conn =>
      obtain ⟨o, ho⟩ := establishProxyConnect_returns net.now conn f (proxyAuthOf url)
      simp only [dialed, ho, Option.map_some']
      exact ⟨_, rfl⟩
  · exact ⟨_, rfl⟩

/-- The deadline of the connection a successful call returns: the call that
clears it was made, and the deadline is cleared if and only if that call
reported no error. -/
theorem establish_success_deadline {now : Nat} {c final : Conn} {f a : Bytes} {k : Nat}
    (h : establishProxyConnect now c f a = some ⟨.values (some k) none, final⟩) :
    ∃ c3 : Conn, final = (c3.SetDeadline none).2 ∧
      ((c3.SetDeadline none).1 = none → final.deadline = none) ∧
      ((c3.SetDeadline none).1 ≠ none → final.deadline = c3.deadline) := by
  have hfin : ∀ c3 : Conn, final = (c3.SetDeadline none).2 →
      ((c3.SetDeadline none).1 = none → final.deadline = none) ∧
      ((c3.SetDeadline none).1 ≠ none → final.deadline = c3.deadline) := by
    intro c3 hf
    subst hf
    unfold Conn.SetDeadline
    rcases c3.deadlineResults with _ | ⟨_ | e, rest⟩ <;> simp
  rcases establish_cases now c f a with ⟨e, c1, -, h1⟩ | ⟨c1, -, h1⟩
  · rw [h1] at h; cases h
  · rcases h1 with ⟨n, e, c2, -, h1⟩ | ⟨n, c2, -, line, e, r, c3, -, -, h1⟩
    · rw [h1] at h; cases h
    · rcases h1 with ⟨x, -, h1⟩ | ⟨-, ⟨text, h1⟩ | h1⟩
      · rw [h1] at h; cases h
      · rw [h1] at h; cases h
      · rw [h1] at h
        simp only [Option.some.injEq, Outcome.mk.injEq] at h
        exact ⟨c3, h.2.symm, hfin c3 h.2.symm⟩

/-! ## Lemmas on the validation of the line -/

/-- A text is an error of at most one kind. -/
theorem IsValidationError_unique {line text : Bytes} {k k2 : ValidationKind}
    (h : IsValidationError line k text) (h2 : IsValidationError line k2 text) : k = k2 := by
  cases k <;> cases k2 <;> first
    | rfl
    | exact absurd (h.symm.trans h2) (ne_of_get?_ne 0 rfl rfl (by decide))
    | exact absurd (h.symm.trans h2) (ne_of_get?_ne 25 rfl rfl (by decide))
    | (obtain ⟨j, -, hj⟩ := h2
       exact absurd (h.symm.trans hj) (ne_of_get?_ne 0 rfl rfl (by decide)))
    | (obtain ⟨j, -, hj⟩ := h
       exact absurd (hj.symm.trans h2) (ne_of_get?_ne 0 rfl rfl (by decide)))

/-- The three shapes of a line: it does not begin with `HTTP/1.1 `, or it does
and has no space after that, or it has a first space after that. -/
theorem line_shape (line : Bytes) :
    ¬ (str "HTTP/1.1 " <+: line) ∨ (∃ t, line = str "HTTP/1.1 " ++ t ∧ (32 : Byte) ∉ t) ∨
      ∃ code tail, line = str "HTTP/1.1 " ++ (code ++ 32 :: tail) ∧ (32 : Byte) ∉ code := by
  by_cases hp : str "HTTP/1.1 " <+: line
  · obtain ⟨t, rfl⟩ := hp
    right
    cases hi : indexOf? t 32 with
    | none => exact Or.inl ⟨t, rfl, not_mem_of_indexOf?_none hi⟩
    | some i =>
      obtain ⟨p, q, h1, h2, -⟩ := indexOf?_some hi
      exact Or.inr ⟨p, q, by rw [h1], h2⟩
  · exact Or.inl hp

theorem establish_unexpected {now : Nat} {c c1 c2 c3 : Conn} {f a line : Bytes} {n : Nat}
    {r : Reader}
    (hd : c.SetDeadline (some (now + ProxyDeadlineDuration)) = (none, c1))
    (hw : c1.Write (connectRequest f a) = ((n, none), c2))
    (hp : ¬ (str "HTTP/1.1 " <+: line))
    (hr : ReadString NewReader c2 10 = some ((line, none), r, c3)) :
    establishProxyConnect now c f a
      = some ⟨.values none (some (.errorString
          (str "unexpected CONNECT response line from proxy: " ++ line))), c3⟩ := by
  have hpf : HasPrefix line (str "HTTP/1.1 ") = false := by
    rw [← Bool.not_eq_true, HasPrefix_iff]
    exact hp
  simp only [establishProxyConnect, hd, hw, hr, hpf, Bool.not_false, if_true, Errorf_unexpected]

theorem establish_no_space {now : Nat} {c c1 c2 c3 : Conn} {f a t : Bytes} {n : Nat}
    {r : Reader}
    (hd : c.SetDeadline (some (now + ProxyDeadlineDuration)) = (none, c1))
    (hw : c1.Write (connectRequest f a) = ((n, none), c2))
    (hsp : (32 : Byte) ∉ t)
    (hr : ReadString NewReader c2 10 = some ((str "HTTP/1.1 " ++ t, none), r, c3)) :
    establishProxyConnect now c f a
      = some ⟨.values none (some (.errorString
          (str "invalid CONNECT response line from proxy: " ++ (str "HTTP/1.1 " ++ t)))), c3⟩ := by
  have hs := sliceFrom?_append (str "HTTP/1.1 ") t
  rw [str_http_length] at hs
  simp only [Nat.cast_ofNat] at hs
  have hi : IndexByte t 32 = -1 := by simp [IndexByte, indexOf?_none hsp]
  simp only [establishProxyConnect, hd, hw, hr, HasPrefix_append, Bool.not_true,
    Bool.false_eq_true, if_false, hs, hi, if_true, Errorf_invalid_line]

/-- The validation of a line that was read: the call succeeds exactly when the
line is `HTTP/1.1 `, a code that `ParseInt` reads as 200, and a space; any
other line ends in one of the four validation errors. -/
theorem establish_classified {now : Nat} {c c1 c2 c3 : Conn} {f a line : Bytes} {n : Nat}
    {r : Reader}
    (hd : c.SetDeadline (some (now + ProxyDeadlineDuration)) = (none, c1))
    (hw : c1.Write (connectRequest f a) = ((n, none), c2))
    (hr : ReadString NewReader c2 10 = some ((line, none), r, c3)) :
    ((∃ code tail, line = str "HTTP/1.1 " ++ (code ++ 32 :: tail) ∧ (32 : Byte) ∉ code ∧
        ParseInt code 10 16 = (200, none)) ∧
      establishProxyConnect now c f a
        = some ⟨.values (some c.id) none, (c3.SetDeadline none).2⟩) ∨
    ((¬ ∃ code tail, line = str "HTTP/1.1 " ++ (code ++ 32 :: tail) ∧ (32 : Byte) ∉ code ∧
        ParseInt code 10 16 = (200, none)) ∧
      ∃ kind text, IsValidationError line kind text ∧
        establishProxyConnect now c f a = some ⟨.values none (some (.errorString text)), c3⟩) := by
  rcases line_shape line with hp | ⟨t, rfl, ht⟩ | ⟨code, tail, rfl, hc⟩
  · refine Or.inr ⟨?_, .unexpectedLine, _, rfl, establish_unexpected hd hw hp hr⟩
    rintro ⟨code, tail, rfl, -⟩
    exact hp (List.prefix_append _ _)
  · refine Or.inr ⟨?_, .invalidLine, _, rfl, establish_no_space hd hw ht hr⟩
    rintro ⟨code, tail, h, -⟩
    have := List.append_cancel_left h
    rw [this] at ht
    simp at ht
  · have he := establish_of_line code tail hd hw hc hr
    have huniq : ∀ code2 tail2, str "HTTP/1.1 " ++ (code ++ 32 :: tail)
        = str "HTTP/1.1 " ++ (code2 ++ 32 :: tail2) → (32 : Byte) ∉ code2 → code2 = code := by
      intro code2 tail2 h h2
      have h3 := List.append_cancel_left h
      have i1 := indexOf?_append tail hc
      have i2 := indexOf?_append tail2 h2
      rw [h3, i2] at i1
      have hlen : code2.length = code.length := Option.some.inj i1
      have := congrArg (List.take code.length) h3
      rw [List.take_left' rfl, ← hlen, List.take_left' rfl] at this
      exact this.symm
    by_cases h1 : (ParseInt code 10 16).2 ≠ none
    · rw [if_pos h1] at he
      refine Or.inr ⟨?_, .invalidCode, _, rfl, he⟩
      rintro ⟨code2, tail2, h, h2, h3⟩
      rw [huniq code2 tail2 h h2] at h3
      rw [h3] at h1
      exact h1 rfl
    · rw [if_neg h1] at he
      by_cases h2 : (ParseInt code 10 16).1 ≠ 200
      · rw [if_pos h2] at he
        refine Or.inr ⟨?_, .rejectedCode, _, ⟨_, h2, rfl⟩, he⟩
        rintro ⟨code2, tail2, h, h4, h3⟩
        rw [huniq code2 tail2 h h4] at h3
        rw [h3] at h2
        exact h2 rfl
      · rw [if_neg h2] at he
        refine Or.inl ⟨⟨code, tail, rfl, hc, ?_⟩, he⟩
        exact Prod.ext (not_not.1 h2) (not_not.1 h1)

/-! ## Lemmas on the base64 decoding -/

theorem decodeStdChar_encodeStdChar (v : Nat) : decodeStdChar (encodeStdChar v) = some (v % 64) := by
  have h : ∀ k : Fin 64, indexOf? encodeStd (encodeStd.getD k.val 0) = some k.val := by decide
  exact h ⟨v % 64, Nat.mod_lt _ (by decide)⟩

theorem encodeStdChar_ne (v : Nat) :
    encodeStdChar v ≠ 61 ∧ encodeStdChar v ≠ 10 ∧ encodeStdChar v ≠ 13 := by
  have h : ∀ k : Fin 64, encodeStd.getD k.val 0 ≠ 61 ∧ encodeStd.getD k.val 0 ≠ 10
      ∧ encodeStd.getD k.val 0 ≠ 13 := by decide
  exact h ⟨v % 64, Nat.mod_lt _ (by decide)⟩

theorem byte_ofNat_val (a : Byte) : (Fin.ofNat a.val : Byte) = a := by
  apply Fin.ext
  show a.val % 256 = a.val
  exact Nat.mod_eq_of_lt a.isLt

theorem decodeQuanta_EncodeToString (s : Bytes) : decodeQuanta (EncodeToString s) = some s := by
  induction s using EncodeToString.induct with
  | case1 a b c t ih =>
    have ha := a.isLt
    have hb := b.isLt
    have hc := c.isLt
    have n2 := (encodeStdChar_ne ((a.val * 65536 + b.val * 256 + c.val) / 64)).1
    have n3 := (encodeStdChar_ne (a.val * 65536 + b.val * 256 + c.val)).1
    simp only [EncodeToString, decodeQuanta, decodeStdChar_encodeStdChar, n2, n3, false_and,
      if_false, ih, Option.map_some']
    have e0 : ((a.val * 65536 + b.val * 256 + c.val) / 262144 % 64 * 262144
        + (a.val * 65536 + b.val * 256 + c.val) / 4096 % 64 * 4096
        + (a.val * 65536 + b.val * 256 + c.val) / 64 % 64 * 64
        + (a.val * 65536 + b.val * 256 + c.val) % 64) = a.val * 65536 + b.val * 256 + c.val := by
      omega
    rw [e0]
    have e1 : (a.val * 65536 + b.val * 256 + c.val) / 65536 % 256 = a.val := by omega
    have e2 : (a.val * 65536 + b.val * 256 + c.val) / 256 % 256 = b.val := by omega
    have e3 : (a.val * 65536 + b.val * 256 + c.val) % 256 = c.val := by omega
    rw [e1, e2, e3, byte_ofNat_val, byte_ofNat_val, byte_ofNat_val]
  | case2 a b =>
    have ha := a.isLt
    have hb := b.isLt
    have n2 := (encodeStdChar_ne ((a.val * 65536 + b.val * 256) / 64)).1
    simp only [EncodeToString, decodeQuanta, decodeStdChar_encodeStdChar, n2, false_and,
      if_false, true_and, if_true]
    have e0 : ((a.val * 65536 + b.val * 256) / 262144 % 64 * 262144
        + (a.val * 65536 + b.val * 256) / 4096 % 64 * 4096
        + (a.val * 65536 + b.val * 256) / 64 % 64 * 64) = a.val * 65536 + b.val * 256 := by
      omega
    rw [e0]
    have e1 : (a.val * 65536 + b.val * 256) / 65536 % 256 = a.val := by omega
    have e2 : (a.val * 65536 + b.val * 256) / 256 % 256 = b.val := by omega
    rw [e1, e2, byte_ofNat_val, byte_ofNat_val]
  | case3 a =>
    have ha := a.isLt
    simp only [EncodeToString, decodeQuanta, decodeStdChar_encodeStdChar, and_self, if_true]
    have e1 : ((a.val * 65536) / 262144 % 64 * 262144 + (a.val * 65536) / 4096 % 64 * 4096)
        / 65536 % 256 = a.val := by omega
    rw [e1, byte_ofNat_val]
  | case4 => rfl

theorem EncodeToString_clean (s : Bytes) :
    ∀ x ∈ EncodeToString s, x ≠ 10 ∧ x ≠ 13 := by
  induction s using EncodeToString.induct with
  | case1 a b c t ih =>
    intro x hx
    simp only [EncodeToString, List.mem_cons] at hx
    rcases hx with rfl | rfl | rfl | rfl | hx
    · exact (encodeStdChar_ne _).2
    · exact (encodeStdChar_ne _).2
    · exact (encodeStdChar_ne _).2
    · exact (encodeStdChar_ne _).2
    · exact ih x hx
  | case2 a b =>
    intro x hx
    simp only [EncodeToString, List.mem_cons, List.mem_singleton, List.not_mem_nil, or_false] at hx
    rcases hx with rfl | rfl | rfl | rfl
    · exact (encodeStdChar_ne _).2
    · exact (encodeStdChar_ne _).2
    · exact (encodeStdChar_ne _).2
    · decide
  | case3 a =>
    intro x hx
    simp only [EncodeToString, List.mem_cons, List.mem_singleton, List.not_mem_nil, or_false] at hx
    rcases hx with rfl | rfl | rfl | rfl
    · exact (encodeStdChar_ne _).2
    · exact (encodeStdChar_ne _).2
    · decide
    · decide
  | case4 =>
    intro x hx
    simp [EncodeToString] at hx

/-- Decoding what `EncodeToString` produced gives the bytes back. -/
theorem DecodeString_EncodeToString (s : Bytes) : DecodeString (EncodeToString s) = some s := by
  unfold DecodeString
  rw [List.filter_eq_self.2, decodeQuanta_EncodeToString]
  intro x hx
  simpa using EncodeToString_clean s x hx

/-! ## The properties -/

/-- C1: when arming the deadline and writing the request succeed and the line
read is `HTTP/1.1 200 ` followed by any text and the newline, the call returns
the connection it was given (the same identity) and a nil error. -/
theorem establishProxyConnect_accepts_200 (now : Nat) (c c1 c2 c3 : Conn) (f a text : Bytes)
    (n : Nat) (r : Reader)
    (hd : c.SetDeadline (some (now + ProxyDeadlineDuration)) = (none, c1))
    (hw : c1.Write (connectRequest f a) = ((n, none), c2))
    (hr : ReadString NewReader c2 10
      = some ((str "HTTP/1.1 200 " ++ text ++ [10], none), r, c3)) :
    establishProxyConnect now c f a
      = some ⟨.values (some c.id) none, (c3.SetDeadline none).2⟩ := by
  have hl : str "HTTP/1.1 200 " ++ text ++ [10]
      = str "HTTP/1.1 " ++ (str "200" ++ 32 :: (text ++ [10])) := rfl
  rw [hl] at hr
  rw [establish_of_line (str "200") (text ++ [10]) hd hw (by decide) hr]
  have hp : ParseInt (str "200") 10 16 = (200, none) := by decide
  simp [hp]

/-- Witness for C1: the proxy answers `HTTP/1.1 200 Connection established`. -/
theorem establishProxyConnect_accepts_200_witness :
    establishProxyConnect 0 (proxyConn [str "HTTP/1.1 200 Connection established\n"])
        (str "farend:5000") []
      = some ⟨.values (some 7) none,
          ((((proxyConn [str "HTTP/1.1 200 Connection established\n"]).requested 0
            (str "farend:5000") []).Read 4096).2.SetDeadline none).2⟩ :=
  establishProxyConnect_accepts_200 0 (proxyConn [str "HTTP/1.1 200 Connection established\n"])
    ((proxyConn [str "HTTP/1.1 200 Connection established\n"]).armed 0)
    ((proxyConn [str "HTTP/1.1 200 Connection established\n"]).requested 0 (str "farend:5000") [])
    (((proxyConn [str "HTTP/1.1 200 Connection established\n"]).requested 0
      (str "farend:5000") []).Read 4096).2
    (str "farend:5000") [] (str "Connection established") 48 ⟨[], none⟩
    (by decide) (by decide) (by decide)

/-- C2: the code at the failing input.  The proxy's answer `HTTP/1.1 200 OK`
and the first tunnelled bytes `hello` arrive in one read: the call succeeds and
returns the connection, and nothing is left to read from it, the bytes `hello`
having stayed in the reader that the call drops. -/
theorem establishProxyConnect_overread_failing_input :
    (proxyConn [str "HTTP/1.1 200 OK\nhello"]).pending = str "HTTP/1.1 200 OK\n" ++ str "hello" ∧
      (ReadString NewReader
          ((proxyConn [str "HTTP/1.1 200 OK\nhello"]).requested 0 (str "farend:5000") []) 10).map
        (fun r => (r.1, r.2.1.buf, r.2.2.pending))
        = some ((str "HTTP/1.1 200 OK\n", none), str "hello", []) ∧
      (establishProxyConnect 0 (proxyConn [str "HTTP/1.1 200 OK\nhello"])
          (str "farend:5000") []).map (fun o => (o.ret, o.final.pending))
        = some (.values (some 7) none, []) := by
  decide

/-- C3: for every three-digit code other than 200 and every reason text, when
the line read is `HTTP/1.1 <code> <reason>` and the newline, the call returns
no connection and the error `expected 200 CONNECT response code but got <code>`,
with the digits of that same code. -/
theorem establishProxyConnect_rejects_other_code (now : Nat) (c c1 c2 c3 : Conn)
    (f a reason : Bytes) (n : Nat) (r : Reader) (code : Nat)
    (h100 : 100 ≤ code) (h999 : code ≤ 999) (h200 : code ≠ 200)
    (hd : c.SetDeadline (some (now + ProxyDeadlineDuration)) = (none, c1))
    (hw : c1.Write (connectRequest f a) = ((n, none), c2))
    (hr : ReadString NewReader c2 10
      = some ((str "HTTP/1.1 " ++ decimal3 code ++ [32] ++ reason ++ [10], none), r, c3)) :
    establishProxyConnect now c f a
      = some ⟨.values none (some (.errorString
          (str "expected 200 CONNECT response code but got " ++ decimal3 code))), c3⟩ := by
  obtain ⟨hdig, hval⟩ := decimal3_spec h100 h999
  have hl : str "HTTP/1.1 " ++ decimal3 code ++ [32] ++ reason ++ [10]
      = str "HTTP/1.1 " ++ (decimal3 code ++ 32 :: (reason ++ [10])) := by
    simp only [List.append_assoc, List.singleton_append, List.cons_append, List.nil_append]
  rw [hl] at hr
  rw [establish_of_line (decimal3 code) (reason ++ [10]) hd hw (not_mem_of_digits hdig) hr]
  have hp : ParseInt (decimal3 code) 10 16 = ((code : Int), none) := by
    have := @ParseInt_digits (decimal3 code) (by simp [decimal3]) hdig (by omega)
    rw [hval] at this
    exact this
  have hne : ¬ ((code : Int) = 200) := by omega
  simp only [hp, ne_eq, not_true_eq_false, if_false, hne, not_false_eq_true, if_true,
    fmtInt_three h100 h999]

/-- Witness for C3: the proxy answers `HTTP/1.1 403 Forbidden`. -/
theorem establishProxyConnect_rejects_other_code_witness :
    establishProxyConnect 0 (proxyConn [str "HTTP/1.1 403 Forbidden\n"]) (str "farend:5000") []
      = some ⟨.values none (some (.errorString
          (str "expected 200 CONNECT response code but got 403"))),
          (((proxyConn [str "HTTP/1.1 403 Forbidden\n"]).requested 0
            (str "farend:5000") []).Read 4096).2⟩ :=
  establishProxyConnect_rejects_other_code 0 (proxyConn [str "HTTP/1.1 403 Forbidden\n"])
    ((proxyConn [str "HTTP/1.1 403 Forbidden\n"]).armed 0)
    ((proxyConn [str "HTTP/1.1 403 Forbidden\n"]).requested 0 (str "farend:5000") [])
    (((proxyConn [str "HTTP/1.1 403 Forbidden\n"]).requested 0 (str "farend:5000") []).Read 4096).2
    (str "farend:5000") [] (str "Forbidden") 48 ⟨[], none⟩ 403
    (by decide) (by decide) (by decide) (by decide) (by decide) (by decide)

/-- C4: every call returns, and the bytes it handed to `Write` are, when the
deadline was armed, the one request `req` (nothing is written when arming the
deadline failed).  That request is `CONNECT f HTTP/1.1`, `Host: f`, the line
`Proxy-Authorization: a` when `a` is not empty, and an empty line, each ended
by a single newline, with `f` and `a` copied as they are: for `f` and `a`
without a newline these are its lines, and a carriage return can only come
from `f` or `a`. -/
theorem establishProxyConnect_writes_request (now : Nat) (c : Conn) (f a : Bytes) :
    ∃ o ops req, establishProxyConnect now c f a = some o ∧ o.final.log = c.log ++ ops ∧
      writesOf ops =
        (if (c.SetDeadline (some (now + ProxyDeadlineDuration))).1 = none then [req] else []) ∧
      req =
        (if a = [] then str "CONNECT " ++ f ++ str " HTTP/1.1\nHost: " ++ f ++ str "\n\n"
          else str "CONNECT " ++ f ++ str " HTTP/1.1\nHost: " ++ f
            ++ str "\nProxy-Authorization: " ++ a ++ str "\n\n") ∧
      ((10 : Byte) ∉ f → (10 : Byte) ∉ a →
        splitLines req =
          if a = [] then [str "CONNECT " ++ f ++ str " HTTP/1.1", str "Host: " ++ f, [], []]
          else [str "CONNECT " ++ f ++ str " HTTP/1.1", str "Host: " ++ f,
            str "Proxy-Authorization: " ++ a, [], []]) ∧
      ((13 : Byte) ∉ f → (13 : Byte) ∉ a → (13 : Byte) ∉ req) := by
  obtain ⟨o, ops, h1, -, -, h2, -, h3⟩ := establish_log now c f a
  exact ⟨o, ops, connectRequest f a, h1, h2, h3, connectRequest_eq f a, splitLines_request f a,
    request_no_cr f a⟩

/-- C5: as amended.  For every proxy URL and every farend address without a
newline, when a dial has opened a connection the call returns, what it handed
to `Write` is the one request (nothing if arming the deadline failed), and the
lines of that request that begin with `Proxy-Authorization:` are: with
userinfo, the one line `Proxy-Authorization: Basic ` followed by the standard
base64 encoding of the userinfo string; without userinfo, none. -/
theorem DialViaProxy_authorization_line (net : Net) (url : URL) (f : Bytes) (conn0 : Conn)
    (hf : (10 : Byte) ∉ f) (hopen : Opens net url conn0) :
    ∃ d final ops req, DialViaProxy net url f = some d ∧ d.opened = some final ∧
      final.log = conn0.log ++ ops ∧
      writesOf ops =
        (if (conn0.SetDeadline (some (net.now + ProxyDeadlineDuration))).1 = none then [req]
          else []) ∧
      authorizationLines req =
        match url.User with
        | some u => [str "Proxy-Authorization: Basic " ++ EncodeToString u.String]
        | none => [] := by
  obtain ⟨op, hdv⟩ := DialViaProxy_opened f hopen
  obtain ⟨o, ops, h1, -, -, h4, -, h6⟩ := establish_log net.now conn0 f (proxyAuthOf url)
  rw [h1] at hdv
  exact ⟨_, o.final, ops, connectRequest f (proxyAuthOf url), hdv, rfl, h4, h6,
    authorizationLines_request url f hf⟩

/-- Witness for C5: the URL carries the userinfo `user:secret`. -/
theorem DialViaProxy_authorization_line_witness :
    ∃ d final ops req,
      DialViaProxy (proxyNet [str "HTTP/1.1 200 OK\n"])
        (proxyURL (some ⟨str "user", str "secret", true⟩)) (str "farend:5000") = some d ∧
      d.opened = some final ∧
      final.log = (proxyConn [str "HTTP/1.1 200 OK\n"]).log ++ ops ∧
      writesOf ops =
        (if ((proxyConn [str "HTTP/1.1 200 OK\n"]).SetDeadline
            (some ((proxyNet [str "HTTP/1.1 200 OK\n"]).now + ProxyDeadlineDuration))).1 = none
          then [req] else []) ∧
      authorizationLines req =
        match (proxyURL (some ⟨str "user", str "secret", true⟩)).User with
        | some u => [str "Proxy-Authorization: Basic " ++ EncodeToString u.String]
        | none => [] :=
  DialViaProxy_authorization_line (proxyNet [str "HTTP/1.1 200 OK\n"])
    (proxyURL (some ⟨str "user", str "secret", true⟩)) (str "farend:5000")
    (proxyConn [str "HTTP/1.1 200 OK\n"]) (by decide) (Or.inl ⟨rfl, rfl⟩)

/-- Counterexample for C5 as stated, a farend address with a newline in it.  The URL has
no userinfo, yet two lines of the request that `DialViaProxy` writes begin with
`Proxy-Authorization:`. -/
theorem DialViaProxy_authorization_line_counterexample :
    (DialViaProxy (proxyNet [str "HTTP/1.1 200 OK\n"]) (proxyURL none)
        (str "farend:5000\nProxy-Authorization: Basic AAAA")).map
      (fun d => d.opened.map fun c => (writesOf c.log).map authorizationLines)
      = some (some [[str "Proxy-Authorization: Basic AAAA HTTP/1.1",
          str "Proxy-Authorization: Basic AAAA"]]) := by
  decide

/-- C6: when the line read does not begin with the nine bytes `HTTP/1.1 `, the
call returns no connection and the error `unexpected CONNECT response line from
proxy: ` followed by the raw line. -/
theorem establishProxyConnect_unexpected_line (now : Nat) (c c1 c2 c3 : Conn)
    (f a line : Bytes) (n : Nat) (r : Reader)
    (hd : c.SetDeadline (some (now + ProxyDeadlineDuration)) = (none, c1))
    (hw : c1.Write (connectRequest f a) = ((n, none), c2))
    (hp : ¬ (str "HTTP/1.1 " <+: line))
    (hr : ReadString NewReader c2 10 = some ((line, none), r, c3)) :
    establishProxyConnect now c f a
      = some ⟨.values none (some (.errorString
          (str "unexpected CONNECT response line from proxy: " ++ line))), c3⟩ := by
  have hpf : HasPrefix line (str "HTTP/1.1 ") = false := by
    rw [← Bool.not_eq_true, HasPrefix_iff]
    exact hp
  simp only [establishProxyConnect, hd, hw, hr, hpf, Bool.not_false, if_true, Errorf_unexpected]

/-- Witness for C6: the proxy answers `HTTP/1.0 200 OK`. -/
theorem establishProxyConnect_unexpected_line_witness :
    establishProxyConnect 0 (proxyConn [str "HTTP/1.0 200 OK\n"]) (str "farend:5000") []
      = some ⟨.values none (some (.errorString
          (str "unexpected CONNECT response line from proxy: HTTP/1.0 200 OK\n"))),
          (((proxyConn [str "HTTP/1.0 200 OK\n"]).requested 0 (str "farend:5000") []).Read 4096).2⟩ :=
  establishProxyConnect_unexpected_line 0 (proxyConn [str "HTTP/1.0 200 OK\n"])
    ((proxyConn [str "HTTP/1.0 200 OK\n"]).armed 0)
    ((proxyConn [str "HTTP/1.0 200 OK\n"]).requested 0 (str "farend:5000") [])
    (((proxyConn [str "HTTP/1.0 200 OK\n"]).requested 0 (str "farend:5000") []).Read 4096).2
    (str "farend:5000") [] (str "HTTP/1.0 200 OK\n") 48 ⟨[], none⟩
    (by decide) (by decide) (by decide) (by decide)

/-- C7: when the line read begins with `HTTP/1.1 ` and has no space after that,
the call returns no connection and the error `invalid CONNECT response line
from proxy: ` followed by the raw line, whatever the code, 200 included. -/
theorem establishProxyConnect_no_separator (now : Nat) (c c1 c2 c3 : Conn)
    (f a t : Bytes) (n : Nat) (r : Reader)
    (hd : c.SetDeadline (some (now + ProxyDeadlineDuration)) = (none, c1))
    (hw : c1.Write (connectRequest f a) = ((n, none), c2))
    (hsp : (32 : Byte) ∉ t)
    (hr : ReadString NewReader c2 10 = some ((str "HTTP/1.1 " ++ t, none), r, c3)) :
    establishProxyConnect now c f a
      = some ⟨.values none (some (.errorString
          (str "invalid CONNECT response line from proxy: " ++ (str "HTTP/1.1 " ++ t)))), c3⟩ := by
  have hs := sliceFrom?_append (str "HTTP/1.1 ") t
  rw [str_http_length] at hs
  simp only [Nat.cast_ofNat] at hs
  have hi : IndexByte t 32 = -1 := by simp [IndexByte, indexOf?_none hsp]
  simp only [establishProxyConnect, hd, hw, hr, HasPrefix_append, Bool.not_true,
    Bool.false_eq_true, if_false, hs, hi, if_true, Errorf_invalid_line]

/-- Witness for C7: the proxy answers `HTTP/1.1 200` and a CRLF, with no space
after the code. -/
theorem establishProxyConnect_no_separator_witness :
    establishProxyConnect 0 (proxyConn [str "HTTP/1.1 200\r\n"]) (str "farend:5000") []
      = some ⟨.values none (some (.errorString
          (str "invalid CONNECT response line from proxy: HTTP/1.1 200\r\n"))),
          (((proxyConn [str "HTTP/1.1 200\r\n"]).requested 0 (str "farend:5000") []).Read 4096).2⟩ :=
  establishProxyConnect_no_separator 0 (proxyConn [str "HTTP/1.1 200\r\n"])
    ((proxyConn [str "HTTP/1.1 200\r\n"]).armed 0)
    ((proxyConn [str "HTTP/1.1 200\r\n"]).requested 0 (str "farend:5000") [])
    (((proxyConn [str "HTTP/1.1 200\r\n"]).requested 0 (str "farend:5000") []).Read 4096).2
    (str "farend:5000") [] (str "200\r\n") 48 ⟨[], none⟩
    (by decide) (by decide) (by decide) (by decide)

/-- C8: when the line read begins with `HTTP/1.1 ` and the text between that and
the first space after it is not a base-10 integer representable in 16 bits, the
call returns no connection and the error `invalid CONNECT response code from
proxy: ` followed by the raw line; that error is no rejected-code error. -/
theorem establishProxyConnect_invalid_code (now : Nat) (c c1 c2 c3 : Conn)
    (f a code tail : Bytes) (n : Nat) (r : Reader)
    (hd : c.SetDeadline (some (now + ProxyDeadlineDuration)) = (none, c1))
    (hw : c1.Write (connectRequest f a) = ((n, none), c2))
    (hsp : (32 : Byte) ∉ code) (hbad : ¬ IsInt16Text code)
    (hr : ReadString NewReader c2 10
      = some ((str "HTTP/1.1 " ++ code ++ [32] ++ tail, none), r, c3)) :
    establishProxyConnect now c f a
        = some ⟨.values none (some (.errorString
            (str "invalid CONNECT response code from proxy: "
              ++ (str "HTTP/1.1 " ++ code ++ [32] ++ tail)))), c3⟩ ∧
      ∀ k : Int, establishProxyConnect now c f a
        ≠ some ⟨.values none (some (.errorString
            (str "expected 200 CONNECT response code but got " ++ fmtInt k))), c3⟩ := by
  have hl : str "HTTP/1.1 " ++ code ++ [32] ++ tail
      = str "HTTP/1.1 " ++ (code ++ 32 :: tail) := by
    simp only [List.append_assoc, List.singleton_append]
  rw [hl] at hr ⊢
  have hp : (ParseInt code 10 16).2 ≠ none := fun h => hbad ((ParseInt_ok_iff code).1 h)
  have he := establish_of_line code tail hd hw hsp hr
  rw [if_pos hp] at he
  refine ⟨he, fun k hk => ?_⟩
  rw [he] at hk
  simp only [Option.some.injEq, Outcome.mk.injEq, Returned.values.injEq,
    GoError.errorString.injEq, true_and, and_true] at hk
  have h2 : (some 105 : Option Byte) = some 101 := congrArg List.head? hk
  exact absurd h2 (by decide)

/-- Witness for C8: the proxy answers `HTTP/1.1 20X OK`. -/
theorem establishProxyConnect_invalid_code_witness :
    establishProxyConnect 0 (proxyConn [str "HTTP/1.1 20X OK\n"]) (str "farend:5000") []
        = some ⟨.values none (some (.errorString
            (str "invalid CONNECT response code from proxy: "
              ++ (str "HTTP/1.1 " ++ str "20X" ++ [32] ++ str "OK\n")))),
            (((proxyConn [str "HTTP/1.1 20X OK\n"]).requested 0 (str "farend:5000") []).Read
              4096).2⟩ ∧
      ∀ k : Int, establishProxyConnect 0 (proxyConn [str "HTTP/1.1 20X OK\n"])
          (str "farend:5000") []
        ≠ some ⟨.values none (some (.errorString
            (str "expected 200 CONNECT response code but got " ++ fmtInt k))),
            (((proxyConn [str "HTTP/1.1 20X OK\n"]).requested 0 (str "farend:5000") []).Read
              4096).2⟩ :=
  establishProxyConnect_invalid_code 0 (proxyConn [str "HTTP/1.1 20X OK\n"])
    ((proxyConn [str "HTTP/1.1 20X OK\n"]).armed 0)
    ((proxyConn [str "HTTP/1.1 20X OK\n"]).requested 0 (str "farend:5000") [])
    (((proxyConn [str "HTTP/1.1 20X OK\n"]).requested 0 (str "farend:5000") []).Read 4096).2
    (str "farend:5000") [] (str "20X") (str "OK\n") 48 ⟨[], none⟩
    (by decide) (by decide) (by decide)
    (fun h => absurd ((ParseInt_ok_iff _).2 h) (by decide)) (by decide)

/-- C9: the code at the failing input.  For the user `a@b` with password `c`
the authorization value is the encoding of `a%40b:c`, the escaped userinfo,
and not the encoding of `a@b:c`. -/
theorem proxyAuthOf_escaped_failing_input :
    proxyAuthOf (proxyURL (some ⟨str "a@b", str "c", true⟩)) = str "Basic YSU0MGI6Yw==" ∧
      proxyAuthOf (proxyURL (some ⟨str "a@b", str "c", true⟩))
        = str "Basic " ++ EncodeToString (str "a%40b:c") ∧
      proxyAuthOf (proxyURL (some ⟨str "a@b", str "c", true⟩))
        ≠ str "Basic " ++ EncodeToString (str "a@b" ++ str ":" ++ str "c") ∧
      (DialViaProxy (proxyNet [str "HTTP/1.1 200 OK\n"])
          (proxyURL (some ⟨str "a@b", str "c", true⟩)) (str "farend:5000")).map
        (fun d => d.opened.map fun c => writesOf c.log)
        = some (some [str ("CONNECT farend:5000 HTTP/1.1\nHost: farend:5000\n"
            ++ "Proxy-Authorization: Basic YSU0MGI6Yw==\n\n")]) := by
  decide

/-- C10: as amended.  `DialViaProxy` never closes the connection it opened:
when a dial (plain or TLS) has opened a connection, the call returns, either
that connection with a nil error or a nil connection with an error, and on
every path, the failures of the handshake included, that connection has its
identity, is as open as the dial left it, and no `Close` was performed on it. -/
theorem DialViaProxy_never_closes (net : Net) (url : URL) (f : Bytes) (conn0 : Conn)
    (hopen : Opens net url conn0) :
    ∃ d final ops, DialViaProxy net url f = some d ∧ d.opened = some final ∧
      (d.ret = .values (some conn0.id) none ∨ ∃ e, d.ret = .values none (some e)) ∧
      final.id = conn0.id ∧ final.closed = conn0.closed ∧ final.log = conn0.log ++ ops ∧
      Op.Close ∉ ops := by
  obtain ⟨op, hdv⟩ := DialViaProxy_opened f hopen
  obtain ⟨o, ops, h1, h2, h3, h4, h5, -⟩ := establish_log net.now conn0 f (proxyAuthOf url)
  have hret := establish_ret h1
  rw [h1] at hdv
  exact ⟨_, o.final, ops, hdv, rfl, hret, h2, h3, h4, h5⟩

/-- Witness for C10: the plain dial opens a connection and the proxy answers
403. -/
theorem DialViaProxy_never_closes_witness :
    ∃ d final ops, DialViaProxy (proxyNet [str "HTTP/1.1 403 Forbidden\n"]) (proxyURL none)
        (str "farend:5000") = some d ∧ d.opened = some final ∧
      (d.ret = .values (some (proxyConn [str "HTTP/1.1 403 Forbidden\n"]).id) none
        ∨ ∃ e, d.ret = .values none (some e)) ∧
      final.id = (proxyConn [str "HTTP/1.1 403 Forbidden\n"]).id ∧
      final.closed = (proxyConn [str "HTTP/1.1 403 Forbidden\n"]).closed ∧
      final.log = (proxyConn [str "HTTP/1.1 403 Forbidden\n"]).log ++ ops ∧ Op.Close ∉ ops :=
  DialViaProxy_never_closes (proxyNet [str "HTTP/1.1 403 Forbidden\n"]) (proxyURL none)
    (str "farend:5000") (proxyConn [str "HTTP/1.1 403 Forbidden\n"]) (Or.inl ⟨rfl, rfl⟩)

/-- Counterexample for C10 as stated.  The proxy answers 403: `DialViaProxy` returns a nil
connection and the rejected-code error, and the connection it opened is not
closed and saw no `Close`. -/
theorem DialViaProxy_leaves_open_counterexample :
    (DialViaProxy (proxyNet [str "HTTP/1.1 403 Forbidden\n"]) (proxyURL none)
        (str "farend:5000")).map
      (fun d => (d.ret, d.opened.map fun c => (c.closed, decide (Op.Close ∈ c.log))))
      = some (.values none
          (some (.errorString (str "expected 200 CONNECT response code but got 403"))),
          some (false, false)) := by
  decide

/-- C11: the code at the failing input.  The deadline is armed, the proxy
answers `HTTP/1.1 200 OK`, and the call that clears the deadline fails: the call
still returns the connection with a nil error, and the deadline of that
connection is the one armed at the start, 30 seconds after time 0. -/
theorem establishProxyConnect_deadline_kept_failing_input :
    (establishProxyConnect 0
        (faultyConn [str "HTTP/1.1 200 OK\n"] [none, some (.net (str "set deadline failed"))] [])
        (str "farend:5000") []).map (fun o => (o.ret, o.final.deadline))
      = some (.values (some 7) none, some 30000000000) ∧
    (establishProxyConnect 0
        (faultyConn [str "HTTP/1.1 200 OK\n"] [none, some (.net (str "set deadline failed"))] [])
        (str "farend:5000") []).map (fun o => o.final.log)
      = some [.SetDeadline (some 30000000000),
          .Write (str "CONNECT farend:5000 HTTP/1.1\nHost: farend:5000\n\n"), .Read 4096,
          .SetDeadline none] := by
  decide

/-- C12: for every URL whose scheme is neither `http` nor `https` the call
returns a nil connection and the error `URL scheme '<scheme>' not supported for
proxy`, having dialled nothing and opened no connection, so that no deadline,
write or read took place. -/
theorem DialViaProxy_unsupported_scheme (net : Net) (url : URL) (f : Bytes)
    (h1 : url.Scheme ≠ str "http") (h2 : url.Scheme ≠ str "https") :
    DialViaProxy net url f
      = some ⟨.values none (some (.errorString
          (str "URL scheme \x27" ++ url.Scheme ++ str "\x27 not supported for proxy"))),
          [], none⟩ := by
  simp only [DialViaProxy, h1, h2, if_false, Errorf_scheme]

/-- Witness for C12: the scheme `socks5`. -/
theorem DialViaProxy_unsupported_scheme_witness :
    DialViaProxy (proxyNet [str "HTTP/1.1 200 OK\n"])
        { proxyURL none with Scheme := str "socks5" } (str "farend:5000")
      = some ⟨.values none (some (.errorString
          (str "URL scheme \x27socks5\x27 not supported for proxy"))), [], none⟩ :=
  DialViaProxy_unsupported_scheme (proxyNet [str "HTTP/1.1 200 OK\n"])
    { proxyURL none with Scheme := str "socks5" } (str "farend:5000") (by decide) (by decide)

/-- C13: when arming and the write succeed and the transport delivers no
newline before its reads fail (the bytes delivered may well be
`HTTP/1.1 200 OK`), the call returns no connection and the error
`failed to read CONNECT response line: <cause>`, without validating what was
read.  The cause is the error the connection's read reported, `io.EOF` for a
stream that ended; it is `io.ErrNoProgress` only for a connection whose reads
return no data and no error. -/
theorem establishProxyConnect_read_failure (now : Nat) (c c1 c2 : Conn) (f a : Bytes) (n : Nat)
    (hd : c.SetDeadline (some (now + ProxyDeadlineDuration)) = (none, c1))
    (hw : c1.Write (connectRequest f a) = ((n, none), c2))
    (hnl : (10 : Byte) ∉ c.pending) :
    ∃ e c3,
      establishProxyConnect now c f a
        = some ⟨.values none
            (some (.withMessage e (str "failed to read CONNECT response line"))), c3⟩ ∧
      (GoError.withMessage e (str "failed to read CONNECT response line")).Error
        = str "failed to read CONNECT response line" ++ str ": " ++ e.Error ∧
      (e = .conn c.readErr ∨ e = .ErrNoProgress) ∧
      (c.Delivers → e = .conn c.readErr) := by
  obtain ⟨-, -, -, i4, -⟩ := c.SetDeadline_frame (some (now + ProxyDeadlineDuration))
  have i5 := c.SetDeadline_readErr (some (now + ProxyDeadlineDuration))
  rw [hd] at i4 i5
  obtain ⟨-, -, -, j4⟩ := c1.Write_frame (connectRequest f a)
  have j5 := c1.Write_readErr (connectRequest f a)
  rw [hw] at j4 j5
  simp only at i4 i5 j4 j5
  have hinc : c2.incoming = c.incoming := j4.trans i4
  have herr : c2.readErr = c.readErr := j5.trans i5
  obtain ⟨line, e, r, c3, hr, hpost, hbf⟩ := ReadString_spec 10 c2
  cases e with
  | none =>
    exfalso
    obtain ⟨pre, hline, -⟩ := hpost.line rfl
    obtain ⟨data, haf, hdata⟩ := hpost.after
    simp only [NewReader, List.nil_append] at hdata
    apply hnl
    have hp : c.pending = c2.pending := by simp only [Conn.pending, hinc]
    rw [hp, haf.pending, hdata, hline]
    simp
  | some x =>
    refine ⟨x, c3, ?_, rfl, ?_, ?_⟩
    · simp only [establishProxyConnect, hd, hw, hr, WithMessage]
    · rcases hpost.cause x rfl with h | h | h | h
      · simp [NewReader] at h
      · rw [herr] at h; exact Or.inl h
      · exact Or.inr h
      · exact (hbf (by rw [h])).elim
    · intro hdel
      have hdel2 : c2.Delivers := by
        unfold Conn.Delivers at hdel ⊢
        rw [hinc]; exact hdel
      have hnp := readBytesLoop_delivers 10 _ [] NewReader c2 (by simp [NewReader]) hdel2
        line (some x) r c3 hr
      rcases hpost.cause x rfl with h | h | h | h
      · simp [NewReader] at h
      · rw [herr] at h; exact h
      · exact (hnp (by rw [h])).elim
      · exact (hbf (by rw [h])).elim

/-- Witness for C13: the proxy sends `HTTP/1.1 200 OK` without a newline and
closes the stream. -/
theorem establishProxyConnect_read_failure_witness :
    ∃ e c3,
      establishProxyConnect 0 (proxyConn [str "HTTP/1.1 200 OK"]) (str "farend:5000") []
        = some ⟨.values none
            (some (.withMessage e (str "failed to read CONNECT response line"))), c3⟩ ∧
      (GoError.withMessage e (str "failed to read CONNECT response line")).Error
        = str "failed to read CONNECT response line" ++ str ": " ++ e.Error ∧
      (e = .conn (proxyConn [str "HTTP/1.1 200 OK"]).readErr ∨ e = .ErrNoProgress) ∧
      ((proxyConn [str "HTTP/1.1 200 OK"]).Delivers →
        e = .conn (proxyConn [str "HTTP/1.1 200 OK"]).readErr) :=
  establishProxyConnect_read_failure 0 (proxyConn [str "HTTP/1.1 200 OK"])
    ((proxyConn [str "HTTP/1.1 200 OK"]).armed 0)
    ((proxyConn [str "HTTP/1.1 200 OK"]).requested 0 (str "farend:5000") [])
    (str "farend:5000") [] 48 (by decide) (by decide) (by decide)

/-- C14: when the write of the request fails, either by reporting an error or
by taking fewer bytes than the request has (in which case, by the contract of
`io.Writer`, it reports an error too), the call returns that error and no
connection, and the operations on the connection were the arming of the
deadline and that one write: no second write, and nothing was read. -/
theorem establishProxyConnect_write_failure (now : Nat) (c c1 c2 : Conn) (f a : Bytes) (n : Nat)
    (err : Option ConnError)
    (hd : c.SetDeadline (some (now + ProxyDeadlineDuration)) = (none, c1))
    (hw : c1.Write (connectRequest f a) = ((n, err), c2))
    (hk : WriterContract (connectRequest f a) (n, err))
    (hfail : err ≠ none ∨ n < (connectRequest f a).length) :
    ∃ e, err = some e ∧
      establishProxyConnect now c f a = some ⟨.values none (some (.conn e)), c2⟩ ∧
      c2.log = c.log ++ [.SetDeadline (some (now + ProxyDeadlineDuration)),
        .Write (connectRequest f a)] ∧
      c2.incoming = c.incoming := by
  have he : ∃ e, err = some e := by
    rcases hfail with h | h
    · exact Option.ne_none_iff_exists'.1 h
    · exact Option.ne_none_iff_exists'.1 (hk h)
  obtain ⟨e, rfl⟩ := he
  obtain ⟨-, -, i3, i4, -⟩ := c.SetDeadline_frame (some (now + ProxyDeadlineDuration))
  rw [hd] at i3 i4
  obtain ⟨-, -, j3, j4⟩ := c1.Write_frame (connectRequest f a)
  rw [hw] at j3 j4
  simp only at i3 i4 j3 j4
  refine ⟨e, rfl, ?_, by rw [j3, i3]; simp, j4.trans i4⟩
  simp only [establishProxyConnect, hd, hw]

/-- Witness for C14: the write takes 3 of the 48 bytes of the request and
reports a broken pipe. -/
theorem establishProxyConnect_write_failure_witness :
    ∃ e, some (ConnError.net (str "broken pipe")) = some e ∧
      establishProxyConnect 0
          (faultyConn [str "HTTP/1.1 200 OK\n"] [] [(3, some (.net (str "broken pipe")))])
          (str "farend:5000") []
        = some ⟨.values none (some (.conn e)),
            (faultyConn [str "HTTP/1.1 200 OK\n"] [] [(3, some (.net (str "broken pipe")))]).requested
              0 (str "farend:5000") []⟩ ∧
      ((faultyConn [str "HTTP/1.1 200 OK\n"] [] [(3, some (.net (str "broken pipe")))]).requested
          0 (str "farend:5000") []).log
        = (faultyConn [str "HTTP/1.1 200 OK\n"] [] [(3, some (.net (str "broken pipe")))]).log
          ++ [.SetDeadline (some (0 + ProxyDeadlineDuration)),
            .Write (connectRequest (str "farend:5000") [])] ∧
      ((faultyConn [str "HTTP/1.1 200 OK\n"] [] [(3, some (.net (str "broken pipe")))]).requested
          0 (str "farend:5000") []).incoming
        = (faultyConn [str "HTTP/1.1 200 OK\n"] [] [(3, some (.net (str "broken pipe")))]).incoming :=
  establishProxyConnect_write_failure 0
    (faultyConn [str "HTTP/1.1 200 OK\n"] [] [(3, some (.net (str "broken pipe")))])
    ((faultyConn [str "HTTP/1.1 200 OK\n"] [] [(3, some (.net (str "broken pipe")))]).armed 0)
    ((faultyConn [str "HTTP/1.1 200 OK\n"] [] [(3, some (.net (str "broken pipe")))]).requested 0
      (str "farend:5000") [])
    (str "farend:5000") [] 3 (some (.net (str "broken pipe"))) (by decide) (by decide)
    (fun _ => by decide) (Or.inr (by decide))

/-- C15: when arming the deadline fails with the error `e`, the call returns
that error and no connection, and the only operation on the connection was
that `SetDeadline`: nothing was written and nothing was read. -/
theorem establishProxyConnect_deadline_failure (now : Nat) (c c1 : Conn) (f a : Bytes)
    (e : ConnError)
    (hd : c.SetDeadline (some (now + ProxyDeadlineDuration)) = (some e, c1)) :
    establishProxyConnect now c f a = some ⟨.values none (some (.conn e)), c1⟩ ∧
      c1.log = c.log ++ [.SetDeadline (some (now + ProxyDeadlineDuration))] ∧
      c1.sent = c.sent ∧ c1.incoming = c.incoming := by
  obtain ⟨-, -, i3, i4, i5⟩ := c.SetDeadline_frame (some (now + ProxyDeadlineDuration))
  rw [hd] at i3 i4 i5
  refine ⟨?_, i3, i5, i4⟩
  simp only [establishProxyConnect, hd]

/-- Witness for C15: the first deadline call fails. -/
theorem establishProxyConnect_deadline_failure_witness :
    establishProxyConnect 0
        (faultyConn [str "HTTP/1.1 200 OK\n"] [some (.net (str "deadline not supported"))] [])
        (str "farend:5000") []
      = some ⟨.values none (some (.conn (.net (str "deadline not supported")))),
          (faultyConn [str "HTTP/1.1 200 OK\n"] [some (.net (str "deadline not supported"))]
            []).armed 0⟩ ∧
      ((faultyConn [str "HTTP/1.1 200 OK\n"] [some (.net (str "deadline not supported"))]
          []).armed 0).log
        = (faultyConn [str "HTTP/1.1 200 OK\n"] [some (.net (str "deadline not supported"))]
            []).log ++ [.SetDeadline (some (0 + ProxyDeadlineDuration))] ∧
      ((faultyConn [str "HTTP/1.1 200 OK\n"] [some (.net (str "deadline not supported"))]
          []).armed 0).sent
        = (faultyConn [str "HTTP/1.1 200 OK\n"] [some (.net (str "deadline not supported"))]
            []).sent ∧
      ((faultyConn [str "HTTP/1.1 200 OK\n"] [some (.net (str "deadline not supported"))]
          []).armed 0).incoming
        = (faultyConn [str "HTTP/1.1 200 OK\n"] [some (.net (str "deadline not supported"))]
            []).incoming :=
  establishProxyConnect_deadline_failure 0
    (faultyConn [str "HTTP/1.1 200 OK\n"] [some (.net (str "deadline not supported"))] [])
    ((faultyConn [str "HTTP/1.1 200 OK\n"] [some (.net (str "deadline not supported"))]
      []).armed 0)
    (str "farend:5000") [] (.net (str "deadline not supported")) (by decide)

/-- C16: every call of `establishProxyConnect` and every call of `DialViaProxy`
returns, and returns either a connection with a nil error or a nil connection
with an error, never both and never neither. -/
theorem outcomes_exclusive_and_total (now : Nat) (c : Conn) (net : Net) (url : URL)
    (f a : Bytes) :
    (∃ o, establishProxyConnect now c f a = some o ∧
      (o.ret = .values (some c.id) none ∨ ∃ e, o.ret = .values none (some e))) ∧
    (∃ d, DialViaProxy net url f = some d ∧
      ((∃ k, d.ret = .values (some k) none) ∨ ∃ e, d.ret = .values none (some e))) := by
  constructor
  · obtain ⟨o, ho⟩ := establishProxyConnect_returns now c f a
    exact ⟨o, ho, establish_ret ho⟩
  · have hdial : ∀ (op : DialOp) (conn : Conn),
        ∃ d, dialed net op f (proxyAuthOf url) conn = some d ∧
          ((∃ k, d.ret = .values (some k) none) ∨ ∃ e, d.ret = .values none (some e)) := by
      intro op conn
      obtain ⟨o, ho⟩ := establishProxyConnect_returns net.now conn f (proxyAuthOf url)
      refine ⟨⟨o.ret, [op], some o.final⟩, by simp only [dialed, ho, Option.map_some'], ?_⟩
      rcases establish_ret ho with h | h
      · exact Or.inl ⟨_, h⟩
      · exact Or.inr h
    unfold DialViaProxy
    simp only []
    split_ifs
    · cases net.Dial (JoinHostPort url.Hostname url.Port) with
      | error e => exact ⟨_, rfl, Or.inr ⟨_, rfl⟩⟩
      | ok conn => exact hdial _ conn
    · cases net.DialTLS (JoinHostPort url.Hostname url.Port) with
      | error e => exact ⟨_, rfl, Or.inr ⟨_, rfl⟩⟩
      | ok conn => exact hdial _ conn
    · exact ⟨_, rfl, Or.inr ⟨_, rfl⟩⟩

/-- C17: for every URL with userinfo, the authorization value that
`DialViaProxy` computes begins with `Basic `, and decoding what follows with the
standard padded base64 gives exactly the bytes of the userinfo string that was
encoded. -/
theorem DialViaProxy_credential_round_trip (url : URL) (u : Userinfo)
    (hu : url.User = some u) :
    (proxyAuthOf url).take 6 = str "Basic " ∧
      DecodeString ((proxyAuthOf url).drop 6) = some u.String := by
  have h : proxyAuthOf url = str "Basic " ++ EncodeToString u.String := by
    simp only [proxyAuthOf, hu]
  have hl : (str "Basic ").length = 6 := by decide
  rw [h, ← hl, List.take_left' rfl, List.drop_left' rfl]
  exact ⟨rfl, DecodeString_EncodeToString _⟩

/-- Witness for C17: the userinfo `user:secret`. -/
theorem DialViaProxy_credential_round_trip_witness :
    (proxyAuthOf (proxyURL (some ⟨str "user", str "secret", true⟩))).take 6 = str "Basic " ∧
      DecodeString ((proxyAuthOf (proxyURL (some ⟨str "user", str "secret", true⟩))).drop 6)
        = some (Userinfo.String ⟨str "user", str "secret", true⟩) :=
  DialViaProxy_credential_round_trip (proxyURL (some ⟨str "user", str "secret", true⟩))
    ⟨str "user", str "secret", true⟩ rfl

/-- C18: as amended.  Whenever the call succeeds, the line it read is
`HTTP/1.1 `, then a code text without a space that stands for 200 (an optional
`+`, any number of `0`, then `200`), then a space and the rest of the line. -/
theorem establishProxyConnect_accepts_only_200 (now : Nat) (c final : Conn) (f a : Bytes)
    (k : Nat) (h : establishProxyConnect now c f a = some ⟨.values (some k) none, final⟩) :
    ∃ line r c3 code tail,
      ReadString NewReader (c.requested now f a) 10 = some ((line, none), r, c3) ∧
      line = str "HTTP/1.1 " ++ code ++ [32] ++ tail ∧ (32 : Byte) ∉ code ∧ Is200Text code := by
  rcases establish_cases now c f a with ⟨e, c1, -, h1⟩ | ⟨c1, hd, h1⟩
  · rw [h1] at h; cases h
  · rcases h1 with ⟨n, e, c2, -, h1⟩ | ⟨n, c2, hw, line, e, r, c3, hr, -, h1⟩
    · rw [h1] at h; cases h
    · have hreq : c.requested now f a = c2 := by
        simp only [Conn.requested, Conn.armed, hd, hw]
      rcases h1 with ⟨x, -, h1⟩ | ⟨he, -⟩
      · rw [h1] at h; cases h
      · subst he
        rcases establish_classified hd hw hr with ⟨⟨code, tail, hline, hsp, hparse⟩, -⟩ |
          ⟨-, kind, text, -, h2⟩
        · refine ⟨line, r, c3, code, tail, by rw [hreq]; exact hr, ?_, hsp,
            (ParseInt_200_iff code).1 hparse⟩
          rw [hline]
          simp only [List.append_assoc, List.singleton_append]
        · rw [h2] at h; cases h

/-- Witness for C18: the proxy answers `HTTP/1.1 200 OK`. -/
theorem establishProxyConnect_accepts_only_200_witness :
    ∃ line r c3 code tail,
      ReadString NewReader ((proxyConn [str "HTTP/1.1 200 OK\n"]).requested 0
        (str "farend:5000") []) 10 = some ((line, none), r, c3) ∧
      line = str "HTTP/1.1 " ++ code ++ [32] ++ tail ∧ (32 : Byte) ∉ code ∧ Is200Text code :=
  establishProxyConnect_accepts_only_200 0 (proxyConn [str "HTTP/1.1 200 OK\n"])
    ((((proxyConn [str "HTTP/1.1 200 OK\n"]).requested 0 (str "farend:5000") []).Read
      4096).2.SetDeadline none).2 (str "farend:5000") [] 7 (by decide)

/-- Counterexample for C18 as stated.  The proxy answers `HTTP/1.1 +200 OK`: the
call succeeds, and the text between `HTTP/1.1 ` and the next space is `+200`,
four characters. -/
theorem establishProxyConnect_accepts_only_200_counterexample :
    (establishProxyConnect 0 (proxyConn [str "HTTP/1.1 +200 OK\n"]) (str "farend:5000") []).map
        (fun o => o.ret) = some (.values (some 7) none) ∧
      (ReadString NewReader
          ((proxyConn [str "HTTP/1.1 +200 OK\n"]).requested 0 (str "farend:5000") []) 10).map
        (fun x => x.1) = some (str "HTTP/1.1 +200 OK\n", none) ∧
      slice? (str "HTTP/1.1 +200 OK\n") 9
          (9 + IndexByte ((str "HTTP/1.1 +200 OK\n").drop 9) 32) = some (str "+200") ∧
      str "+200" ≠ str "200" := by
  decide

/-- C19: whatever line was read, the two slices of the validation are within
bounds, the call does not panic, and it ends in success or in an error of
exactly one of the four validation kinds. -/
theorem establishProxyConnect_validation_safe (now : Nat) (c c1 c2 c3 : Conn)
    (f a line : Bytes) (n : Nat) (r : Reader)
    (hd : c.SetDeadline (some (now + ProxyDeadlineDuration)) = (none, c1))
    (hw : c1.Write (connectRequest f a) = ((n, none), c2))
    (hr : ReadString NewReader c2 10 = some ((line, none), r, c3)) :
    (HasPrefix line (str "HTTP/1.1 ") = true →
      ∃ tail, sliceFrom? line 9 = some tail ∧
        (IndexByte tail 32 ≠ -1 → ∃ code, slice? line 9 (9 + IndexByte tail 32) = some code)) ∧
    (∀ final, establishProxyConnect now c f a ≠ some ⟨.panic, final⟩) ∧
    (establishProxyConnect now c f a
        = some ⟨.values (some c.id) none, (c3.SetDeadline none).2⟩ ∨
      ∃ kind text,
        establishProxyConnect now c f a = some ⟨.values none (some (.errorString text)), c3⟩ ∧
        IsValidationError line kind text ∧
        ∀ kind2, IsValidationError line kind2 text → kind2 = kind) := by
  refine ⟨slices_in_bounds line, ?_, ?_⟩
  · intro final hfin
    rcases establish_classified hd hw hr with ⟨-, h⟩ | ⟨-, kind, text, -, h⟩ <;>
      · rw [h] at hfin
        cases hfin
  · rcases establish_classified hd hw hr with ⟨-, h⟩ | ⟨-, kind, text, hk, h⟩
    · exact Or.inl h
    · exact Or.inr ⟨kind, text, h, hk, fun kind2 h2 => IsValidationError_unique h2 hk⟩

/-- Witness for C19: the proxy answers `HTTP/1.1 ` and nothing more on the
line, so the first slice is empty. -/
theorem establishProxyConnect_validation_safe_witness :
    (HasPrefix (str "HTTP/1.1 \n") (str "HTTP/1.1 ") = true →
      ∃ tail, sliceFrom? (str "HTTP/1.1 \n") 9 = some tail ∧
        (IndexByte tail 32 ≠ -1 →
          ∃ code, slice? (str "HTTP/1.1 \n") 9 (9 + IndexByte tail 32) = some code)) ∧
    (∀ final, establishProxyConnect 0 (proxyConn [str "HTTP/1.1 \n"]) (str "farend:5000") []
      ≠ some ⟨.panic, final⟩) ∧
    (establishProxyConnect 0 (proxyConn [str "HTTP/1.1 \n"]) (str "farend:5000") []
        = some ⟨.values (some (proxyConn [str "HTTP/1.1 \n"]).id) none,
            ((((proxyConn [str "HTTP/1.1 \n"]).requested 0 (str "farend:5000") []).Read
              4096).2.SetDeadline none).2⟩ ∨
      ∃ kind text,
        establishProxyConnect 0 (proxyConn [str "HTTP/1.1 \n"]) (str "farend:5000") []
          = some ⟨.values none (some (.errorString text)),
              (((proxyConn [str "HTTP/1.1 \n"]).requested 0 (str "farend:5000") []).Read
                4096).2⟩ ∧
        IsValidationError (str "HTTP/1.1 \n") kind text ∧
        ∀ kind2, IsValidationError (str "HTTP/1.1 \n") kind2 text → kind2 = kind) :=
  establishProxyConnect_validation_safe 0 (proxyConn [str "HTTP/1.1 \n"])
    ((proxyConn [str "HTTP/1.1 \n"]).armed 0)
    ((proxyConn [str "HTTP/1.1 \n"]).requested 0 (str "farend:5000") [])
    (((proxyConn [str "HTTP/1.1 \n"]).requested 0 (str "farend:5000") []).Read 4096).2
    (str "farend:5000") [] (str "HTTP/1.1 \n") 48 ⟨[], none⟩
    (by decide) (by decide) (by decide)

/-- C20: when arming, the write and the read succeed, the call accepts the
line read exactly when it is `HTTP/1.1 `, an optional `+`, any number of `0`,
`200`, a space and any text up to the newline that ends the line; every other
line ends in one of the four validation errors. -/
theorem establishProxyConnect_accepted_language (now : Nat) (c c1 c2 c3 : Conn)
    (f a line : Bytes) (n : Nat) (r : Reader)
    (hd : c.SetDeadline (some (now + ProxyDeadlineDuration)) = (none, c1))
    (hw : c1.Write (connectRequest f a) = ((n, none), c2))
    (hr : ReadString NewReader c2 10 = some ((line, none), r, c3)) :
    (establishProxyConnect now c f a
        = some ⟨.values (some c.id) none, (c3.SetDeadline none).2⟩ ↔ AcceptedLine line) ∧
    (¬ AcceptedLine line →
      ∃ kind text, IsValidationError line kind text ∧
        establishProxyConnect now c f a
          = some ⟨.values none (some (.errorString text)), c3⟩) := by
  obtain ⟨pre, hpre, hnl⟩ := ReadString_line hr
  have hacc : AcceptedLine line ↔
      ∃ code tail, line = str "HTTP/1.1 " ++ (code ++ 32 :: tail) ∧ (32 : Byte) ∉ code ∧
        ParseInt code 10 16 = (200, none) := by
    constructor
    · rintro ⟨code, text, h200, hline, -⟩
      refine ⟨code, text ++ [10], ?_, Is200Text_no_space h200, (ParseInt_200_iff code).2 h200⟩
      rw [hline]
      simp only [List.append_assoc, List.singleton_append, List.cons_append, List.nil_append]
    · rintro ⟨code, tail, hline, -, hparse⟩
      have h1 : (str "HTTP/1.1 " ++ code) ++ 32 :: tail = pre ++ [10] := by
        rw [← hpre, hline, List.append_assoc]
      obtain ⟨text, rfl, htext⟩ := tail_of_line h1 hnl
      refine ⟨code, text, (ParseInt_200_iff code).1 hparse, ?_, htext⟩
      rw [hline]
      simp only [List.append_assoc, List.singleton_append, List.cons_append, List.nil_append]
  rcases establish_classified hd hw hr with ⟨hform, h⟩ | ⟨hform, kind, text, hk, h⟩
  · exact ⟨⟨fun _ => hacc.2 hform, fun _ => h⟩, fun hn => (hn (hacc.2 hform)).elim⟩
  · refine ⟨⟨fun hs => ?_, fun ha => (hform (hacc.1 ha)).elim⟩, fun _ => ⟨kind, text, hk, h⟩⟩
    rw [h] at hs
    cases hs

/-- Witness for C20: the proxy answers `HTTP/1.1 +0200 OK`. -/
theorem establishProxyConnect_accepted_language_witness :
    (establishProxyConnect 0 (proxyConn [str "HTTP/1.1 +0200 OK\n"]) (str "farend:5000") []
        = some ⟨.values (some (proxyConn [str "HTTP/1.1 +0200 OK\n"]).id) none,
            ((((proxyConn [str "HTTP/1.1 +0200 OK\n"]).requested 0 (str "farend:5000") []).Read
              4096).2.SetDeadline none).2⟩ ↔ AcceptedLine (str "HTTP/1.1 +0200 OK\n")) ∧
    (¬ AcceptedLine (str "HTTP/1.1 +0200 OK\n") →
      ∃ kind text, IsValidationError (str "HTTP/1.1 +0200 OK\n") kind text ∧
        establishProxyConnect 0 (proxyConn [str "HTTP/1.1 +0200 OK\n"]) (str "farend:5000") []
          = some ⟨.values none (some (.errorString text)),
              (((proxyConn [str "HTTP/1.1 +0200 OK\n"]).requested 0 (str "farend:5000") []).Read
                4096).2⟩) :=
  establishProxyConnect_accepted_language 0 (proxyConn [str "HTTP/1.1 +0200 OK\n"])
    ((proxyConn [str "HTTP/1.1 +0200 OK\n"]).armed 0)
    ((proxyConn [str "HTTP/1.1 +0200 OK\n"]).requested 0 (str "farend:5000") [])
    (((proxyConn [str "HTTP/1.1 +0200 OK\n"]).requested 0 (str "farend:5000") []).Read 4096).2
    (str "farend:5000") [] (str "HTTP/1.1 +0200 OK\n") 48 ⟨[], none⟩
    (by decide) (by decide) (by decide)

end Tunnel
